import Mathlib

/-!
Verification development for the ephemeral-message relay backend.

Shallow embedding of the server-side decision-and-lifecycle pipeline:
the forensic-resistant ephemeral store, the policy engine (thresholds,
shadow/canary gating, exception quota), the ML anomaly-score adapter,
the metadata sanitizer, and the forensic-resistant audit log.

Conventions of the embedding:
* wall-clock times and real-valued quantities are rationals (`ℚ`);
* Python `dict`s (insertion-ordered) are association lists
  `List (String × α)` with in-place update semantics;
* byte strings are `List Nat` with every element `< 256`;
* sources of randomness (`secrets.randbelow`, forensic-id generation)
  are threaded explicitly as parameters;
* stateful methods become explicit state-passing functions.
-/

/-! ## Python dict as insertion-ordered association list -/

/-- Lookup in an insertion-ordered association list (`dict.get`). -/
def dictGet {α : Type} (k : String) : List (String × α) → Option α
  | [] => none
  | (k', v) :: rest => if k' = k then some v else dictGet k rest

/-- `d[k] = v` on an insertion-ordered dict: replace in place if the key
exists, otherwise append at the end. -/
def dictSet {α : Type} (k : String) (v : α) : List (String × α) → List (String × α)
  | [] => [(k, v)]
  | (k', v') :: rest => if k' = k then (k, v) :: rest else (k', v') :: dictSet k v rest

/-- `d.pop(k, None)`: remove the key if present. -/
def dictRemove {α : Type} (k : String) : List (String × α) → List (String × α)
  | [] => []
  | (k', v') :: rest => if k' = k then rest else (k', v') :: dictRemove k rest

theorem dictGet_dictSet_self {α : Type} (k : String) (v : α) (d : List (String × α)) :
    dictGet k (dictSet k v d) = some v := by
  induction d with
  | nil => simp [dictGet, dictSet]
  | cons hd tl ih =>
    obtain ⟨k', v'⟩ := hd
    by_cases h : k' = k <;> simp [dictGet, dictSet, h, ih]

theorem dictGet_dictSet_other {α : Type} {k k' : String} (hne : k ≠ k') (v : α)
    (d : List (String × α)) : dictGet k' (dictSet k v d) = dictGet k' d := by
  induction d with
  | nil => simp [dictGet, dictSet, hne]
  | cons hd tl ih =>
    obtain ⟨k₀, v₀⟩ := hd
    by_cases h : k₀ = k
    · subst h; simp [dictGet, dictSet, hne]
    · simp [dictGet, dictSet, h, ih]

theorem dictGet_dictRemove_other {α : Type} {k k' : String} (hne : k ≠ k')
    (d : List (String × α)) : dictGet k' (dictRemove k d) = dictGet k' d := by
  induction d with
  | nil => simp [dictRemove]
  | cons hd tl ih =>
    obtain ⟨k₀, v₀⟩ := hd
    by_cases h : k₀ = k
    · subst h; simp [dictGet, dictRemove, hne]
    · simp [dictGet, dictRemove, h, ih]

/-! ## Ephemeral store (`forensic_resistant_storage.py`) -/

/-- Entry of `ForensicResistantStorage._store` (lines 107–114 of
`forensic_resistant_storage.py`). -/
structure StoreEntry where
  ciphertext : List Nat
  expire_at : ℚ
  read : Bool
  created_at : ℚ
  access_count : Nat
  forensic_id : String
  deriving DecidableEq, Repr

/-- The sanitized copy returned by `ForensicResistantStorage.get`
(lines 134–139): a fresh `bytes` copy of the ciphertext plus the
non-mutable metadata fields. -/
structure GetResult where
  ciphertext : List Nat
  expire_at : ℚ
  read : Bool
  forensic_id : String
  deriving DecidableEq, Repr

/-- Mutable state of `ForensicResistantStorage`: the keyed map `_store`
and the `_deletion_queue`. -/
structure StoreState where
  store : List (String × StoreEntry)
  deletionQueue : List String
  deriving DecidableEq, Repr

def StoreState.empty : StoreState := ⟨[], []⟩

namespace ForensicResistantStorage

/-- `_queue_secure_deletion` (lines 165–168): append the token to the
deletion queue unless it is already queued. -/
def queueSecureDeletion (token : String) (s : StoreState) : StoreState :=
  if token ∈ s.deletionQueue then s
  else { s with deletionQueue := s.deletionQueue ++ [token] }

/-- `put` (lines 97–116).  `now` stands for `time.time()` and `fid` for
the random `_generate_forensic_id(token)` value; `ttl` is the `int`
argument `ttl_seconds`.  Note the source performs **no validation** of
`ttl_seconds`: the entry is recorded unconditionally with
`expire_at = now + ttl_seconds`. -/
def put (now : ℚ) (fid : String) (token : String) (ciphertext : List Nat)
    (ttl : ℤ) (s : StoreState) : StoreState :=
  { s with
    store := dictSet token
      { ciphertext := ciphertext
        expire_at := now + (ttl : ℚ)
        read := false
        created_at := now
        access_count := 0
        forensic_id := fid } s.store }

/-- `get` (lines 118–139): absent token returns `None`; an expired entry
(`time.time() > expire_at`, strict) is queued for secure deletion and
`None` is returned; otherwise `access_count` is incremented and a
sanitized copy (fresh `bytes` of the ciphertext) is returned. -/
def get (now : ℚ) (token : String) (s : StoreState) : Option GetResult × StoreState :=
  match dictGet token s.store with
  | none => (none, s)
  | some entry =>
    if now > entry.expire_at then
      (none, queueSecureDeletion token s)
    else
      (some { ciphertext := entry.ciphertext
              expire_at := entry.expire_at
              read := entry.read
              forensic_id := entry.forensic_id },
       { s with store := dictSet token { entry with access_count := entry.access_count + 1 } s.store })

/-- `mark_read_and_delete` (lines 141–149): if the token is absent
return `False`; otherwise **only queue** the token for secure deletion
(the entry stays in `_store` until the background cleanup loop drains
the queue) and return `True`. -/
def markReadAndDelete (token : String) (s : StoreState) : Bool × StoreState :=
  if (dictGet token s.store).isSome then
    (true, queueSecureDeletion token s)
  else
    (false, s)

/-- `_secure_delete_entry` (lines 176–205), state effect only: pop the
token from `_store` (the multi-pass overwrite of the popped buffers has
no effect on the remaining state). -/
def secureDeleteEntry (token : String) (s : StoreState) : StoreState :=
  { s with store := dictRemove token s.store }

/-- One drain of the deletion queue as performed at the top of
`_secure_cleanup_loop` (lines 211–217): snapshot the queue, clear it,
and securely delete each snapshotted token. -/
def processDeletionQueue (s : StoreState) : StoreState :=
  s.deletionQueue.foldl (fun st t => secureDeleteEntry t st)
    { s with deletionQueue := [] }

end ForensicResistantStorage

/-- `SendRequest.ttl_seconds` is declared `conint(gt=0)` in
`backend/app/schemas.py` line 21: request parsing accepts a TTL iff it
is strictly positive (violations surface as a 400 validation error in
`routes/send.py` lines 52–56, before the store is reached). -/
def SendRequest.ttlValid (ttl : ℤ) : Bool := 0 < ttl

/-- A Python dict never holds a duplicate key; association lists that
model reachable dict states satisfy this invariant. -/
def keysNodup {α : Type} (d : List (String × α)) : Prop := (d.map Prod.fst).Nodup

theorem mem_keys_dictSet {α : Type} {k k' : String} (v : α) {d : List (String × α)}
    (h : k' ∈ (dictSet k v d).map Prod.fst) : k' = k ∨ k' ∈ d.map Prod.fst := by
  induction d with
  | nil => simpa [dictSet] using h
  | cons hd tl ih =>
    obtain ⟨k₀, v₀⟩ := hd
    by_cases hk : k₀ = k
    · subst hk
      simp only [dictSet, if_pos rfl, if_true, eq_self_iff_true, List.map_cons, List.mem_cons] at h ⊢
      tauto
    · simp only [dictSet, hk, if_false, List.map_cons, List.mem_cons] at h ⊢
      rcases h with h | h
      · tauto
      · rcases ih h with h' | h' <;> tauto

theorem mem_keys_dictRemove {α : Type} {k k' : String} {d : List (String × α)}
    (h : k' ∈ (dictRemove k d).map Prod.fst) : k' ∈ d.map Prod.fst := by
  induction d with
  | nil => simpa [dictRemove] using h
  | cons hd tl ih =>
    obtain ⟨k₀, v₀⟩ := hd
    by_cases hk : k₀ = k
    · subst hk
      simp only [dictRemove, if_pos rfl, if_true, eq_self_iff_true] at h
      simp only [List.map_cons, List.mem_cons]
      tauto
    · simp only [dictRemove, hk, if_false, List.map_cons, List.mem_cons] at h ⊢
      rcases h with h | h
      · tauto
      · exact Or.inr (ih h)

theorem keysNodup_dictSet {α : Type} (k : String) (v : α) {d : List (String × α)}
    (h : keysNodup d) : keysNodup (dictSet k v d) := by
  induction d with
  | nil => simp [dictSet, keysNodup]
  | cons hd tl ih =>
    obtain ⟨k₀, v₀⟩ := hd
    simp only [keysNodup, List.map_cons, List.nodup_cons] at h
    by_cases hk : k₀ = k
    · subst hk
      simp only [dictSet, if_pos rfl, if_true, eq_self_iff_true]
      simp only [keysNodup, List.map_cons, List.nodup_cons]
      exact h
    · simp only [dictSet, hk, if_false]
      simp only [keysNodup, List.map_cons, List.nodup_cons]
      refine ⟨?_, ih h.2⟩
      intro hmem
      rcases mem_keys_dictSet v hmem with h' | h'
      · exact hk h'
      · exact h.1 h'

theorem keysNodup_dictRemove {α : Type} (k : String) {d : List (String × α)}
    (h : keysNodup d) : keysNodup (dictRemove k d) := by
  induction d with
  | nil => simpa [dictRemove] using h
  | cons hd tl ih =>
    obtain ⟨k₀, v₀⟩ := hd
    simp only [keysNodup, List.map_cons, List.nodup_cons] at h
    by_cases hk : k₀ = k
    · subst hk
      simp only [dictRemove, if_pos rfl, if_true, eq_self_iff_true]
      exact h.2
    · simp only [dictRemove, hk, if_false]
      simp only [keysNodup, List.map_cons, List.nodup_cons]
      exact ⟨fun hmem => h.1 (mem_keys_dictRemove hmem), ih h.2⟩

theorem dictGet_dictRemove_self {α : Type} (k : String) {d : List (String × α)}
    (h : keysNodup d) : dictGet k (dictRemove k d) = none := by
  induction d with
  | nil => simp [dictRemove, dictGet]
  | cons hd tl ih =>
    obtain ⟨k₀, v₀⟩ := hd
    simp only [keysNodup, List.map_cons, List.nodup_cons] at h
    by_cases hk : k₀ = k
    · subst hk
      simp only [dictRemove, if_pos rfl]
      clear ih
      induction tl with
      | nil => simp [dictGet]
      | cons hd' tl' ih' =>
        obtain ⟨k₁, v₁⟩ := hd'
        simp only [List.map_cons, List.mem_cons, not_or] at h
        have hne : k₁ ≠ k₀ := fun he => h.1.1 he.symm
        simp only [dictGet, if_neg hne]
        exact ih' ⟨h.1.2, (List.nodup_cons.mp h.2).2⟩
    · simp only [dictRemove, hk, if_false, dictGet, if_neg hk]
      exact ih h.2

theorem dictGet_none_dictRemove {α : Type} (k k' : String) {d : List (String × α)}
    (h : dictGet k d = none) : dictGet k (dictRemove k' d) = none := by
  induction d with
  | nil => simp [dictRemove, dictGet]
  | cons hd tl ih =>
    obtain ⟨k₀, v₀⟩ := hd
    by_cases hk : k₀ = k
    · subst hk; simp [dictGet] at h
    · simp only [dictGet, if_neg hk] at h
      by_cases hk' : k₀ = k'
      · subst hk'; simpa [dictRemove, dictGet] using h
      · simp only [dictRemove, hk', if_false, dictGet, if_neg hk]
        exact ih h

namespace ForensicResistantStorage

theorem processDeletionQueue_store (s : StoreState) :
    (processDeletionQueue s).store
      = s.deletionQueue.foldl (fun d t => dictRemove t d) s.store := by
  unfold processDeletionQueue
  generalize s.deletionQueue = q
  induction q generalizing s with
  | nil => rfl
  | cons hd tl ih =>
    simp only [List.foldl_cons]
    have := ih (s := { s with store := dictRemove hd s.store, deletionQueue := [] })
    simpa [secureDeleteEntry] using this

theorem foldRemove_lookup_none {token : String} (q : List String)
    (d : List (String × StoreEntry)) (hnd : keysNodup d)
    (h : token ∈ q ∨ dictGet token d = none) :
    dictGet token (q.foldl (fun d t => dictRemove t d) d) = none := by
  induction q generalizing d with
  | nil =>
    rcases h with h | h
    · simp at h
    · simpa using h
  | cons hd tl ih =>
    simp only [List.foldl_cons]
    rcases h with h | h
    · rcases List.mem_cons.mp h with he | hmem
      · subst he
        exact ih _ (keysNodup_dictRemove _ hnd)
          (Or.inr (dictGet_dictRemove_self _ hnd))
      · exact ih _ (keysNodup_dictRemove _ hnd) (Or.inl hmem)
    · exact ih _ (keysNodup_dictRemove _ hnd)
        (Or.inr (dictGet_none_dictRemove _ _ h))

end ForensicResistantStorage

/-! ## Claims C1, C2, C10: store lifecycle -/

namespace ForensicResistantStorage

/-- C1 counterexample input: `put` at time 0 with ttl 10, then
`mark_read_and_delete`, then `get` still at time 0. -/
def c1State : StoreState :=
  (markReadAndDelete "t1" (put 0 "fid0" "t1" [104, 105] 10 StoreState.empty)).2

end ForensicResistantStorage

/-- C1 (counterexample): the claim "after `mark_read_and_delete(t)` has
returned, any subsequent `get(t)` returns absent" is false on the code:
`mark_read_and_delete` only queues the token for secure deletion, so a
`get` issued before the background cleanup thread drains the queue
still returns the unexpired entry.  Concretely, after
`put("t1", [104,105], 10)` at time 0 and `mark_read_and_delete("t1")`,
`get("t1")` at time 0 returns the ciphertext, not absent. -/
theorem c1_mark_read_then_get_not_absent :
    (ForensicResistantStorage.get 0 "t1" ForensicResistantStorage.c1State).1
      = some ⟨[104, 105], 10, false, "fid0"⟩ ∧
    (ForensicResistantStorage.get 0 "t1" ForensicResistantStorage.c1State).1 ≠ none := by
  have h : (ForensicResistantStorage.get 0 "t1" ForensicResistantStorage.c1State).1
      = some ⟨[104, 105], 10, false, "fid0"⟩ := by
    unfold ForensicResistantStorage.c1State ForensicResistantStorage.get
      ForensicResistantStorage.markReadAndDelete ForensicResistantStorage.put
      ForensicResistantStorage.queueSecureDeletion StoreState.empty
    norm_num [dictGet, dictSet]
  exact ⟨h, by simp [h]⟩

/-- C1 (amended): for every token, ciphertext and `ttl > 0`, after
`put(token, c, ttl)` a `get(token)` at elapsed time `e` with
`0 ≤ e ≤ ttl` returns `c` (the expiry test is strict, so `e = ttl`
still returns the entry); a `get` at `e > ttl` returns absent; and
after `mark_read_and_delete(token)` a `get(token)` returns absent once
the background cleanup loop has drained the deletion queue. -/
theorem c1_entry_lifecycle :
    (∀ (now e : ℚ) (fid token : String) (ct : List Nat) (ttl : ℤ) (s : StoreState),
      0 < ttl → 0 ≤ e → e ≤ (ttl : ℚ) →
        (ForensicResistantStorage.get (now + e) token
          (ForensicResistantStorage.put now fid token ct ttl s)).1
          = some ⟨ct, now + (ttl : ℚ), false, fid⟩) ∧
    (∀ (now e : ℚ) (fid token : String) (ct : List Nat) (ttl : ℤ) (s : StoreState),
      (ttl : ℚ) < e →
        (ForensicResistantStorage.get (now + e) token
          (ForensicResistantStorage.put now fid token ct ttl s)).1 = none) ∧
    (∀ (now now' : ℚ) (fid token : String) (ct : List Nat) (ttl : ℤ) (s : StoreState),
      keysNodup s.store →
        (ForensicResistantStorage.get now' token
          (ForensicResistantStorage.processDeletionQueue
            (ForensicResistantStorage.markReadAndDelete token
              (ForensicResistantStorage.put now fid token ct ttl s)).2)).1 = none) := by
  refine ⟨?_, ?_, ?_⟩
  · intro now e fid token ct ttl s _ _ he
    unfold ForensicResistantStorage.get ForensicResistantStorage.put
    simp only [dictGet_dictSet_self]
    have : ¬ (now + e > now + (ttl : ℚ)) := by
      simp only [not_lt]
      exact add_le_add_left he now
    simp [this]
  · intro now e fid token ct ttl s he
    unfold ForensicResistantStorage.get ForensicResistantStorage.put
    simp only [dictGet_dictSet_self]
    have : now + e > now + (ttl : ℚ) := add_lt_add_left he now
    simp [this]
  · intro now now' fid token ct ttl s hnd
    set s1 := ForensicResistantStorage.put now fid token ct ttl s with hs1
    have hsome : (dictGet token s1.store).isSome := by
      simp [hs1, ForensicResistantStorage.put, dictGet_dictSet_self]
    have hmark : (ForensicResistantStorage.markReadAndDelete token s1).2
        = ForensicResistantStorage.queueSecureDeletion token s1 := by
      simp [ForensicResistantStorage.markReadAndDelete, hsome]
    rw [hmark]
    set s2 := ForensicResistantStorage.queueSecureDeletion token s1 with hs2
    have hmem : token ∈ s2.deletionQueue := by
      simp only [hs2, ForensicResistantStorage.queueSecureDeletion]
      by_cases hq : token ∈ s1.deletionQueue
      · simpa [hq] using hq
      · simp [hq]
    have hstore : s2.store = s1.store := by
      simp only [hs2, ForensicResistantStorage.queueSecureDeletion]
      by_cases hq : token ∈ s1.deletionQueue <;> simp [hq]
    have hnd1 : keysNodup s1.store := by
      simpa [hs1, ForensicResistantStorage.put] using
        keysNodup_dictSet token _ hnd
    have hlook : dictGet token
        (ForensicResistantStorage.processDeletionQueue s2).store = none := by
      rw [ForensicResistantStorage.processDeletionQueue_store]
      exact ForensicResistantStorage.foldRemove_lookup_none s2.deletionQueue s2.store
        (hstore ▸ hnd1) (Or.inl hmem)
    unfold ForensicResistantStorage.get
    simp [hlook]

/-- C1 witness: the amended lifecycle at `token="t1"`, `c=[104,105]`,
`ttl=10`, `now=0`, checked at elapsed times `e=3` (returned), `e=11`
(absent) and after mark-and-sweep (absent). -/
theorem c1_entry_lifecycle_witness :
    ((0:ℤ) < 10 ∧ (0:ℚ) ≤ 3 ∧ (3:ℚ) ≤ ((10:ℤ):ℚ) ∧
      (ForensicResistantStorage.get ((0:ℚ) + 3) "t1"
        (ForensicResistantStorage.put 0 "fid0" "t1" [104, 105] 10 StoreState.empty)).1
        = some ⟨[104, 105], (0:ℚ) + ((10:ℤ):ℚ), false, "fid0"⟩) ∧
    (((10:ℤ):ℚ) < 11 ∧
      (ForensicResistantStorage.get ((0:ℚ) + 11) "t1"
        (ForensicResistantStorage.put 0 "fid0" "t1" [104, 105] 10 StoreState.empty)).1 = none) ∧
    (keysNodup StoreState.empty.store ∧
      (ForensicResistantStorage.get 99 "t1"
        (ForensicResistantStorage.processDeletionQueue
          (ForensicResistantStorage.markReadAndDelete "t1"
            (ForensicResistantStorage.put 0 "fid0" "t1" [104, 105] 10 StoreState.empty)).2)).1
        = none) :=
  ⟨⟨by decide, by norm_num, by norm_num,
      c1_entry_lifecycle.1 0 3 "fid0" "t1" [104, 105] 10 StoreState.empty
        (by decide) (by norm_num) (by norm_num)⟩,
   ⟨by norm_num,
      c1_entry_lifecycle.2.1 0 11 "fid0" "t1" [104, 105] 10 StoreState.empty (by norm_num)⟩,
   ⟨by simp [StoreState.empty, keysNodup],
      c1_entry_lifecycle.2.2 0 99 "fid0" "t1" [104, 105] 10 StoreState.empty
        (by simp [StoreState.empty, keysNodup])⟩⟩

/-- C2 (counterexample): the claim "put fails and no entry is recorded
whenever `ttl_seconds ≤ 0`" is false on the storage code:
`ForensicResistantStorage.put` performs no TTL validation, so
`put("t", [1], -1)` at time 0 records an entry (with `expire_at = -1`). -/
theorem c2_put_negative_ttl_records_entry :
    dictGet "t" (ForensicResistantStorage.put 0 "fid0" "t" [1] (-1) StoreState.empty).store
      = some ⟨[1], 0 + ((-1 : ℤ) : ℚ), false, 0, 0, "fid0"⟩ ∧
    dictGet "t" (ForensicResistantStorage.put 0 "fid0" "t" [1] (-1) StoreState.empty).store
      ≠ none := by
  have h : dictGet "t"
      (ForensicResistantStorage.put 0 "fid0" "t" [1] (-1) StoreState.empty).store
      = some ⟨[1], 0 + ((-1 : ℤ) : ℚ), false, 0, 0, "fid0"⟩ := by
    unfold ForensicResistantStorage.put StoreState.empty
    simp [dictGet, dictSet]
  exact ⟨h, by simp [h]⟩

/-- C2 (amended): `ForensicResistantStorage.put` itself performs no TTL
validation: for every `ttl_seconds` (positive or not) it records the
entry with `expire_at = now + ttl_seconds`.  The rejection of
`ttl_seconds ≤ 0` as a validation error happens upstream, in request
parsing (`SendRequest.ttl_seconds : conint(gt=0)`), which accepts a TTL
iff it is strictly positive — so no call with `ttl ≤ 0` reaches `put`
through the `/send` pipeline. -/
theorem c2_put_ttl_handling :
    (∀ (now : ℚ) (fid token : String) (ct : List Nat) (ttl : ℤ) (s : StoreState),
      dictGet token (ForensicResistantStorage.put now fid token ct ttl s).store
        = some ⟨ct, now + (ttl : ℚ), false, now, 0, fid⟩) ∧
    (∀ ttl : ℤ, ttl ≤ 0 → SendRequest.ttlValid ttl = false) ∧
    (∀ ttl : ℤ, 0 < ttl → SendRequest.ttlValid ttl = true) := by
  refine ⟨?_, ?_, ?_⟩
  · intro now fid token ct ttl s
    unfold ForensicResistantStorage.put
    simp [dictGet_dictSet_self]
  · intro ttl h
    simp [SendRequest.ttlValid, not_lt.mpr h]
  · intro ttl h
    simp [SendRequest.ttlValid, h]

/-- C2 witness: at `ttl = 5 > 0` the entry is recorded with
`expire_at = now + 5`, the schema accepts; at `ttl = 0` the schema
rejects. -/
theorem c2_put_ttl_handling_witness :
    (dictGet "tok" (ForensicResistantStorage.put 7 "f" "tok" [9] 5 StoreState.empty).store
      = some ⟨[9], 7 + ((5 : ℤ) : ℚ), false, 7, 0, "f"⟩) ∧
    ((0 : ℤ) ≤ 0 ∧ SendRequest.ttlValid 0 = false) ∧
    ((0 : ℤ) < 5 ∧ SendRequest.ttlValid 5 = true) :=
  ⟨c2_put_ttl_handling.1 7 "f" "tok" [9] 5 StoreState.empty,
   ⟨le_refl 0, c2_put_ttl_handling.2.1 0 (le_refl 0)⟩,
   ⟨by decide, c2_put_ttl_handling.2.2 5 (by decide)⟩⟩

/-- C10: a successful `get` (token present, not expired) returns a copy
of the stored ciphertext bytes (value-equal to the stored buffer; the
source materialises it with `bytes(entry["ciphertext"])`, a fresh
object, so caller-side mutation cannot reach the store), and its only
effect on the state is to increment `access_count` of that entry:
ciphertext, `expire_at`, `read` and `forensic_id` are unchanged, the
deletion queue is unchanged, and every other token's entry is
unchanged. -/
theorem c10_get_frame_effect
    (now : ℚ) (token : String) (s : StoreState) (entry : StoreEntry)
    (hfound : dictGet token s.store = some entry)
    (hfresh : ¬ now > entry.expire_at) :
    (ForensicResistantStorage.get now token s).1
      = some ⟨entry.ciphertext, entry.expire_at, entry.read, entry.forensic_id⟩ ∧
    dictGet token (ForensicResistantStorage.get now token s).2.store
      = some { entry with access_count := entry.access_count + 1 } ∧
    (ForensicResistantStorage.get now token s).2.deletionQueue = s.deletionQueue ∧
    (∀ t' : String, t' ≠ token →
      dictGet t' (ForensicResistantStorage.get now token s).2.store
        = dictGet t' s.store) := by
  unfold ForensicResistantStorage.get
  simp only [hfound, hfresh, if_false]
  refine ⟨trivial, ?_, trivial, ?_⟩
  · simp [dictGet_dictSet_self]
  · intro t' hne
    exact dictGet_dictSet_other (fun h => hne h.symm) _ _

/-- C10 witness: a store holding tokens "a" and "b"; `get` on "a" at
time 1 returns the copy, bumps only `access_count` of "a", and leaves
"b" and the deletion queue untouched. -/
theorem c10_get_frame_effect_witness :
    (dictGet "a" (⟨[("a", ⟨[1, 2], 5, false, 0, 3, "fa"⟩),
                    ("b", ⟨[7], 9, true, 0, 0, "fb"⟩)], ["q"]⟩ : StoreState).store
        = some ⟨[1, 2], 5, false, 0, 3, "fa"⟩) ∧
    (¬ (1 : ℚ) > (5 : ℚ)) ∧
    ((ForensicResistantStorage.get 1 "a"
        ⟨[("a", ⟨[1, 2], 5, false, 0, 3, "fa"⟩), ("b", ⟨[7], 9, true, 0, 0, "fb"⟩)], ["q"]⟩).1
      = some ⟨[1, 2], 5, false, "fa"⟩ ∧
     dictGet "a" (ForensicResistantStorage.get 1 "a"
        ⟨[("a", ⟨[1, 2], 5, false, 0, 3, "fa"⟩), ("b", ⟨[7], 9, true, 0, 0, "fb"⟩)], ["q"]⟩).2.store
      = some ⟨[1, 2], 5, false, 0, 4, "fa"⟩ ∧
     (ForensicResistantStorage.get 1 "a"
        ⟨[("a", ⟨[1, 2], 5, false, 0, 3, "fa"⟩), ("b", ⟨[7], 9, true, 0, 0, "fb"⟩)], ["q"]⟩).2.deletionQueue
      = ["q"] ∧
     dictGet "b" (ForensicResistantStorage.get 1 "a"
        ⟨[("a", ⟨[1, 2], 5, false, 0, 3, "fa"⟩), ("b", ⟨[7], 9, true, 0, 0, "fb"⟩)], ["q"]⟩).2.store
      = dictGet "b" (⟨[("a", ⟨[1, 2], 5, false, 0, 3, "fa"⟩),
                      ("b", ⟨[7], 9, true, 0, 0, "fb"⟩)], ["q"]⟩ : StoreState).store) := by
  have hfound : dictGet "a" (⟨[("a", ⟨[1, 2], 5, false, 0, 3, "fa"⟩),
      ("b", ⟨[7], 9, true, 0, 0, "fb"⟩)], ["q"]⟩ : StoreState).store
      = some ⟨[1, 2], 5, false, 0, 3, "fa"⟩ := by simp [dictGet]
  have hfresh : ¬ (1 : ℚ) > (5 : ℚ) := by norm_num
  have h := c10_get_frame_effect 1 "a"
    ⟨[("a", ⟨[1, 2], 5, false, 0, 3, "fa"⟩), ("b", ⟨[7], 9, true, 0, 0, "fb"⟩)], ["q"]⟩
    ⟨[1, 2], 5, false, 0, 3, "fa"⟩ hfound hfresh
  exact ⟨hfound, hfresh, h.1, h.2.1, h.2.2.1, h.2.2.2 "b" (by decide)⟩

/-! ## ML adapter (`ml_adapter.py`) — claims C3 and C8 -/

/-- Model component of `ProductionMLAdapter`: either untrained, or
trained with an opaque decision function standing for
`self._model.decision_function` composed with the optional
`self._scaler.transform` (both are external sklearn objects). -/
inductive MLModel where
  | untrained
  | trained (decision : List ℚ → ℚ)

/-- Mutable state of `ProductionMLAdapter` relevant to scoring and
observation: the rolling buffer, the model, and the configured
capacity `_max_buffer` (`ML_MAX_BUFFER`, default 10000). -/
structure AdapterState where
  buffer : List (List ℚ)
  model : MLModel
  maxBuffer : Nat

namespace ProductionMLAdapter

/-- `_heuristic_score` (lines 199–230): deterministic fallback used
when the model is untrained.  Vector components default to
`padded_size=0, interval=0, dest_count=1, device_change=0` when the
vector is shorter than 4. -/
def heuristicScore (vector : List ℚ) : ℤ :=
  let padded_size := vector.getD 0 0
  let interval := vector.getD 1 0
  let dest_count := vector.getD 2 1
  let device_change := vector.getD 3 0
  let score : ℤ := 70
  let score := if padded_size > 50 * 1024 then score - 35
    else if padded_size > 10 * 1024 then score - 20
    else if padded_size > 2 * 1024 then score - 10
    else score
  let score := if interval < 1 then score - 30
    else if interval < 5 then score - 10
    else score
  let score := if dest_count ≥ 10 then score - 30
    else if dest_count ≥ 3 then score - 12
    else score
  let score := if device_change ≠ 0 then score - 30 else score
  max 0 (min 100 score)

/-- `score` (lines 163–197): untrained falls back to the heuristic;
trained computes `df = decision_function(...)` and returns
`int(max(0, min(100, 50 + df * 50)))` (truncation of a non-negative
value, i.e. the floor).  Scoring reads only the model, never the
buffer, and mutates nothing. -/
def score (st : AdapterState) (vector : List ℚ) : ℤ :=
  match st.model with
  | MLModel.untrained => heuristicScore vector
  | MLModel.trained df => ⌊max 0 (min 100 (50 + df vector * 50))⌋

/-- `add_observation` (lines 100–112): convert to floats (always
succeeds on numeric input; **no arity or finiteness check**), append to
the buffer, and pop the oldest element if the buffer now exceeds
`_max_buffer`. -/
def addObservation (st : AdapterState) (vector : List ℚ) : AdapterState :=
  let b := st.buffer ++ [vector]
  { st with buffer := if b.length > st.maxBuffer then b.drop 1 else b }

end ProductionMLAdapter

/-- C3: for every vector `v`, `score(v)` is an integer in `[0,100]`,
depends only on the model component of the state (purity: the buffer is
never read and nothing is mutated — `score` returns no state); when the
scorer is untrained it equals the deterministic heuristic (start at 70;
−35/−20/−10 by padded-size bracket, −30/−10 by interval bracket,
−30/−12 by dest-count bracket, −30 on device change; clamp to [0,100]);
and concretely `score([2048, 0.5, 3, 1]) = 0`. -/
theorem c3_score_range_pure_heuristic :
    (∀ (st : AdapterState) (v : List ℚ),
      0 ≤ ProductionMLAdapter.score st v ∧ ProductionMLAdapter.score st v ≤ 100) ∧
    (∀ (st st' : AdapterState) (v : List ℚ), st.model = st'.model →
      ProductionMLAdapter.score st v = ProductionMLAdapter.score st' v) ∧
    (∀ (buf : List (List ℚ)) (cap : Nat) (v : List ℚ),
      ProductionMLAdapter.score ⟨buf, MLModel.untrained, cap⟩ v
        = ProductionMLAdapter.heuristicScore v) ∧
    (∀ (buf : List (List ℚ)) (cap : Nat),
      ProductionMLAdapter.score ⟨buf, MLModel.untrained, cap⟩ [2048, 1/2, 3, 1] = 0) := by
  refine ⟨?_, ?_, ?_, ?_⟩
  · intro st v
    unfold ProductionMLAdapter.score
    match st.model with
    | MLModel.untrained =>
      unfold ProductionMLAdapter.heuristicScore
      constructor
      · exact le_max_left 0 _
      · exact le_trans (max_le (by norm_num) (min_le_left _ _)) (le_refl 100)
    | MLModel.trained df =>
      constructor
      · exact Int.le_floor.mpr (by exact_mod_cast le_max_left 0 _)
      · have : (max 0 (min 100 (50 + df v * 50)) : ℚ) ≤ 100 :=
          max_le (by norm_num) (min_le_left _ _)
        calc ⌊max 0 (min 100 (50 + df v * 50))⌋ ≤ ⌊(100 : ℚ)⌋ := Int.floor_le_floor this
          _ = 100 := by norm_num
  · intro st st' v hm
    unfold ProductionMLAdapter.score
    rw [hm]
  · intro buf cap v
    rfl
  · intro buf cap
    unfold ProductionMLAdapter.score ProductionMLAdapter.heuristicScore
    norm_num [List.getD]

/-- C3 witness: the purity conjunct applied at two states sharing the
untrained model, and the concrete heuristic value at `[2048, 0.5, 3, 1]`. -/
theorem c3_score_range_pure_heuristic_witness :
    ((⟨[[1]], MLModel.untrained, 5⟩ : AdapterState).model
        = (⟨[], MLModel.untrained, 9⟩ : AdapterState).model ∧
      ProductionMLAdapter.score ⟨[[1]], MLModel.untrained, 5⟩ [2048, 1/2, 3, 1]
        = ProductionMLAdapter.score ⟨[], MLModel.untrained, 9⟩ [2048, 1/2, 3, 1]) ∧
    ProductionMLAdapter.score ⟨[], MLModel.untrained, 9⟩ [2048, 1/2, 3, 1] = 0 :=
  ⟨⟨rfl, c3_score_range_pure_heuristic.2.1 ⟨[[1]], MLModel.untrained, 5⟩
      ⟨[], MLModel.untrained, 9⟩ [2048, 1/2, 3, 1] rfl⟩,
   c3_score_range_pure_heuristic.2.2.2 [] 9⟩

/-- C8 (counterexample): the claim that `add_observation` validates
arity (fixed dimension D = 4) and rejects invalid vectors is false on
the code: `add_observation` only runs `float(x)` over the elements and
appends whatever numeric vector it gets.  Concretely, the arity-2
vector `[1, 2]` is appended to an empty buffer instead of being
rejected. -/
theorem c8_no_arity_validation :
    (ProductionMLAdapter.addObservation ⟨[], MLModel.untrained, 10000⟩ [1, 2]).buffer
      = [[1, 2]] ∧ ([1, 2] : List ℚ).length ≠ 4 := by
  constructor
  · unfold ProductionMLAdapter.addObservation
    simp
  · simp

/-- C8 (amended): `add_observation` performs no arity or finiteness
validation — any numeric vector is appended as-is (it becomes the last
buffer element); the buffer never exceeds capacity, the oldest element
is dropped exactly when the buffer was full, and below capacity the
buffer is extended without dropping. -/
theorem c8_add_observation_behaviour :
    (∀ (st : AdapterState) (v : List ℚ), 1 ≤ st.maxBuffer →
      (ProductionMLAdapter.addObservation st v).buffer.getLast? = some v) ∧
    (∀ (st : AdapterState) (v : List ℚ), st.buffer.length ≤ st.maxBuffer →
      (ProductionMLAdapter.addObservation st v).buffer.length ≤ st.maxBuffer) ∧
    (∀ (st : AdapterState) (v : List ℚ), 1 ≤ st.buffer.length →
      st.buffer.length = st.maxBuffer →
      (ProductionMLAdapter.addObservation st v).buffer = st.buffer.drop 1 ++ [v]) ∧
    (∀ (st : AdapterState) (v : List ℚ), st.buffer.length < st.maxBuffer →
      (ProductionMLAdapter.addObservation st v).buffer = st.buffer ++ [v]) := by
  refine ⟨?_, ?_, ?_, ?_⟩
  · intro st v hcap
    unfold ProductionMLAdapter.addObservation
    by_cases h : (st.buffer ++ [v]).length > st.maxBuffer
    · simp only [h, if_true, if_pos h]
      match hb : st.buffer with
      | [] =>
        exfalso
        rw [hb] at h
        simp at h
        omega
      | c :: cs =>
        simp [List.getLast?_append]
    · simp only [h, if_false, if_neg h]
      simp [List.getLast?_append]
  · intro st v hle
    unfold ProductionMLAdapter.addObservation
    by_cases h : (st.buffer ++ [v]).length > st.maxBuffer
    · simp only [if_pos h]
      simp only [List.length_drop, List.length_append, List.length_singleton]
      simp only [List.length_append, List.length_singleton] at h
      omega
    · simp only [if_neg h]
      simp only [List.length_append, List.length_singleton] at h ⊢
      omega
  · intro st v hpos hfull
    unfold ProductionMLAdapter.addObservation
    have h : (st.buffer ++ [v]).length > st.maxBuffer := by
      simp only [List.length_append, List.length_singleton]
      omega
    simp only [if_pos h]
    match hb : st.buffer with
    | [] => rw [hb] at hpos; simp at hpos
    | c :: cs => simp
  · intro st v hlt
    unfold ProductionMLAdapter.addObservation
    have h : ¬ (st.buffer ++ [v]).length > st.maxBuffer := by
      simp only [List.length_append, List.length_singleton]
      omega
    simp only [if_neg h]

/-- C8 witness: a full buffer of capacity 2 drops its oldest vector on
append; a below-capacity buffer keeps everything; the appended vector
is always the last element. -/
theorem c8_add_observation_behaviour_witness :
    (1 ≤ (⟨[[1], [2]], MLModel.untrained, 2⟩ : AdapterState).maxBuffer ∧
      (ProductionMLAdapter.addObservation ⟨[[1], [2]], MLModel.untrained, 2⟩ [3]).buffer.getLast?
        = some [3]) ∧
    (1 ≤ ([[1], [2]] : List (List ℚ)).length ∧
      ([[1], [2]] : List (List ℚ)).length = 2 ∧
      (ProductionMLAdapter.addObservation ⟨[[1], [2]], MLModel.untrained, 2⟩ [3]).buffer
        = ([[1], [2]] : List (List ℚ)).drop 1 ++ [[3]]) ∧
    (([[1]] : List (List ℚ)).length < 3 ∧
      (ProductionMLAdapter.addObservation ⟨[[1]], MLModel.untrained, 3⟩ [4]).buffer
        = [[1], [4]]) :=
  ⟨⟨by decide,
      c8_add_observation_behaviour.1 ⟨[[1], [2]], MLModel.untrained, 2⟩ [3] (by decide)⟩,
   ⟨by decide, by decide,
      c8_add_observation_behaviour.2.2.1 ⟨[[1], [2]], MLModel.untrained, 2⟩ [3]
        (by decide) (by decide)⟩,
   ⟨by decide,
      c8_add_observation_behaviour.2.2.2 ⟨[[1]], MLModel.untrained, 3⟩ [4] (by decide)⟩⟩

/-! ## SHA-256 (`hashlib.sha256`), bytes and hex helpers

The policy engine and audit log call `hashlib.sha256` /
`hashlib.pbkdf2_hmac`; the standard algorithms are embedded here over
`List Nat` byte strings. -/

/-- Truncate to a 32-bit word. -/
def w32 (n : Nat) : Nat := n % 4294967296

/-- Right-rotation of a 32-bit word (`k ≤ 32`). -/
def rotr32 (k x : Nat) : Nat := (x % 2 ^ k) * 2 ^ (32 - k) + x / 2 ^ k

/-- Logical right shift. -/
def shr32 (k x : Nat) : Nat := x / 2 ^ k

/-- Bitwise complement of a 32-bit word. -/
def not32 (x : Nat) : Nat := 4294967295 - x % 4294967296

def sha256Ch (x y z : Nat) : Nat := Nat.xor (Nat.land x y) (Nat.land (not32 x) z)

def sha256Maj (x y z : Nat) : Nat :=
  Nat.xor (Nat.xor (Nat.land x y) (Nat.land x z)) (Nat.land y z)

def bigSigma0 (x : Nat) : Nat := Nat.xor (Nat.xor (rotr32 2 x) (rotr32 13 x)) (rotr32 22 x)

def bigSigma1 (x : Nat) : Nat := Nat.xor (Nat.xor (rotr32 6 x) (rotr32 11 x)) (rotr32 25 x)

def smallSigma0 (x : Nat) : Nat := Nat.xor (Nat.xor (rotr32 7 x) (rotr32 18 x)) (shr32 3 x)

def smallSigma1 (x : Nat) : Nat := Nat.xor (Nat.xor (rotr32 17 x) (rotr32 19 x)) (shr32 10 x)

/-- The 64 SHA-256 round constants (decimal; the fractional cube-root
words of the first 64 primes). -/
def sha256K : List Nat :=
  [1116352408, 1899447441, 3049323471, 3921009573,
   961987163, 1508970993, 2453635748, 2870763221,
   3624381080, 310598401, 607225278, 1426881987,
   1925078388, 2162078206, 2614888103, 3248222580,
   3835390401, 4022224774, 264347078, 604807628,
   770255983, 1249150122, 1555081692, 1996064986,
   2554220882, 2821834349, 2952996808, 3210313671,
   3336571891, 3584528711, 113926993, 338241895,
   666307205, 773529912, 1294757372, 1396182291,
   1695183700, 1986661051, 2177026350, 2456956037,
   2730485921, 2820302411, 3259730800, 3345764771,
   3516065817, 3600352804, 4094571909, 275423344,
   430227734, 506948616, 659060556, 883997877,
   958139571, 1322822218, 1537002063, 1747873779,
   1955562222, 2024104815, 2227730452, 2361852424,
   2428436474, 2756734187, 3204031479, 3329325298]

/-- Big-endian byte serialisation of `n` on `k` bytes. -/
def toBytesBE (k n : Nat) : List Nat :=
  (List.range k).map (fun i => n / 2 ^ (8 * (k - 1 - i)) % 256)

/-- `int.from_bytes(bs, "big")`. -/
def fromBytesBE : List Nat → Nat
  | [] => 0
  | b :: rest => b * 256 ^ rest.length + fromBytesBE rest

/-- SHA-256 padding: `0x80`, zeros, then the 64-bit big-endian bit
length, to a multiple of 64 bytes. -/
def sha256Pad (msg : List Nat) : List Nat :=
  let L := msg.length
  let padLen := (64 - ((L + 9) % 64)) % 64
  msg ++ [128] ++ List.replicate padLen 0 ++ toBytesBE 8 (L * 8)

/-- Split a byte string into 64-byte chunks. -/
def chunks64 (bs : List Nat) : List (List Nat) :=
  if h : bs = [] then []
  else bs.take 64 :: chunks64 (bs.drop 64)
termination_by bs.length
decreasing_by
  cases bs with
  | nil => exact absurd rfl h
  | cons a l => simp; omega

/-- Extend the 16 message-schedule words to 64. -/
def msgSchedule (w0 : List Nat) : List Nat :=
  (List.range 48).foldl
    (fun w _ =>
      let n := w.length
      w ++ [w32 (smallSigma1 (w.getD (n - 2) 0) + w.getD (n - 7) 0
              + smallSigma0 (w.getD (n - 15) 0) + w.getD (n - 16) 0)])
    w0

/-- The eight 32-bit words of a SHA-256 state. -/
structure Hash8 where
  v0 : Nat
  v1 : Nat
  v2 : Nat
  v3 : Nat
  v4 : Nat
  v5 : Nat
  v6 : Nat
  v7 : Nat

/-- SHA-256 initial state (decimal; the fractional square-root words
of the first 8 primes). -/
def sha256H0 : Hash8 :=
  ⟨1779033703, 3144134277, 1013904242, 2773480762,
   1359893119, 2600822924, 528734635, 1541459225⟩

/-- SHA-256 compression of one 64-byte chunk. -/
def sha256Compress (H : Hash8) (chunk : List Nat) : Hash8 :=
  let w0 := (List.range 16).map (fun i => fromBytesBE ((chunk.drop (4 * i)).take 4))
  let w := msgSchedule w0
  let step := fun (s : Nat × Nat × Nat × Nat × Nat × Nat × Nat × Nat) (t : Nat) =>
    let (a, b, c, d, e, f, g, h) := s
    let t1 := w32 (h + bigSigma1 e + sha256Ch e f g + sha256K.getD t 0 + w.getD t 0)
    let t2 := w32 (bigSigma0 a + sha256Maj a b c)
    (w32 (t1 + t2), a, b, c, w32 (d + t1), e, f, g)
  let r := (List.range 64).foldl step (H.v0, H.v1, H.v2, H.v3, H.v4, H.v5, H.v6, H.v7)
  ⟨w32 (H.v0 + r.1), w32 (H.v1 + r.2.1), w32 (H.v2 + r.2.2.1), w32 (H.v3 + r.2.2.2.1),
   w32 (H.v4 + r.2.2.2.2.1), w32 (H.v5 + r.2.2.2.2.2.1), w32 (H.v6 + r.2.2.2.2.2.2.1),
   w32 (H.v7 + r.2.2.2.2.2.2.2)⟩

/-- `hashlib.sha256(msg).digest()`: the 32-byte digest. -/
def sha256 (msg : List Nat) : List Nat :=
  let Hf := (chunks64 (sha256Pad msg)).foldl sha256Compress sha256H0
  [Hf.v0, Hf.v1, Hf.v2, Hf.v3, Hf.v4, Hf.v5, Hf.v6, Hf.v7].flatMap (toBytesBE 4)

/-- `str.encode("utf-8")`, faithful for the ASCII data the backend
hashes (tokens, field names, metadata values). -/
def strToBytes (s : String) : List Nat := s.toList.map Char.toNat

/-- Lowercase hex digit (as produced by Python's `hexdigest`). -/
def hexChar (n : Nat) : Char := if n < 10 then Char.ofNat (48 + n) else Char.ofNat (87 + n)

/-- `bytes.hex()` / `hexdigest()`: two lowercase hex digits per byte. -/
def bytesToHex (bs : List Nat) : String :=
  String.mk (bs.flatMap (fun b => [hexChar (b / 16), hexChar (b % 16)]))

/-- `_opaque_id` (`policy.py` lines 58–65): full SHA-256 hexdigest of
the identifier. -/
def opaqueId (s : String) : String := bytesToHex (sha256 (strToBytes s))

theorem toBytesBE_length (k n : Nat) : (toBytesBE k n).length = k := by
  simp [toBytesBE]

theorem toBytesBE_mem_lt {k n b : Nat} (h : b ∈ toBytesBE k n) : b < 256 := by
  simp only [toBytesBE, List.mem_map, List.mem_range] at h
  obtain ⟨i, _, rfl⟩ := h
  exact Nat.mod_lt _ (by norm_num)

theorem sha256_length (msg : List Nat) : (sha256 msg).length = 32 := by
  unfold sha256
  simp [List.length_flatMap, toBytesBE_length]

theorem sha256_mem_lt {msg : List Nat} {b : Nat} (h : b ∈ sha256 msg) : b < 256 := by
  unfold sha256 at h
  rw [List.mem_flatMap] at h
  obtain ⟨a, _, hb⟩ := h
  exact toBytesBE_mem_lt hb

theorem fromBytesBE_lt {bs : List Nat} (h : ∀ b ∈ bs, b < 256) :
    fromBytesBE bs < 256 ^ bs.length := by
  induction bs with
  | nil => simp [fromBytesBE]
  | cons b rest ih =>
    have hb : b < 256 := h b (List.mem_cons_self b rest)
    have hrest := ih (fun x hx => h x (List.mem_cons_of_mem b hx))
    calc fromBytesBE (b :: rest)
        = b * 256 ^ rest.length + fromBytesBE rest := rfl
      _ < b * 256 ^ rest.length + 256 ^ rest.length := by omega
      _ = (b + 1) * 256 ^ rest.length := by ring
      _ ≤ 256 * 256 ^ rest.length := by
          exact Nat.mul_le_mul_right _ (by omega)
      _ = 256 ^ (rest.length + 1) := by ring
      _ = 256 ^ (b :: rest).length := by simp

/-! ## Policy engine (`policy.py`) — claims C4 and C5 -/

/-- Environment-configurable policy knobs (`policy.py` lines 35–45):
thresholds, shadow mode, canary fraction, exception quota and window. -/
structure PolicyConfig where
  threshAllow : ℤ
  threshReauth : ℤ
  shadowMode : Bool
  canaryFraction : ℚ
  exceptionQuota : Nat
  exceptionWindow : ℚ

/-- The in-memory exception ledger `_exception_events`
(`policy.py` line 54): key → list of timestamps. -/
abbrev ExceptionLedger : Type := List (String × List ℚ)

/-- `metadata_summary` as consumed by `decide_action`: only the
truthiness of `exception_flag` influences the decision (the remaining
summary fields flow into the audit record only). -/
structure MetadataSummary where
  exception_flag : Bool
  padded_size : Option ℚ
  dest_count : Option ℚ

/-- The dict returned by `decide_action` (`policy.py` lines 214–220). -/
structure Decision where
  action : String
  policy : String
  enforced : Bool
  reason : String
  token_hash : String

/-- Python `a or b` on an optional string: an absent or empty string is
falsy. -/
def pyOrStr (a : Option String) (b : String) : String :=
  match a with
  | some s => if s = "" then b else s
  | none => b

namespace Policy

/-- `_within_exception_quota` (`policy.py` lines 88–102): purge
timestamps older than `now - window`, refuse if at least `quota`
remain, otherwise record `now` and accept. -/
def withinExceptionQuota (quota : Nat) (window : ℚ) (now : ℚ) (key : String)
    (ledger : ExceptionLedger) : Bool × ExceptionLedger :=
  let events := (dictGet key ledger).getD []
  let events := events.filter (fun ts => decide (ts ≥ now - window))
  if events.length ≥ quota then
    (false, dictSet key events ledger)
  else
    (true, dictSet key (events ++ [now]) ledger)

/-- `(first 8 bytes of SHA-256(token) read big-endian) / 2^64`, the
quantity computed in `_should_enforce_canary` (`policy.py` line 116). -/
def canaryVal (token : String) : ℚ :=
  (fromBytesBE ((sha256 (strToBytes token)).take 8) : ℚ) / 2 ^ 64

/-- `_should_enforce_canary` (`policy.py` lines 104–120): shortcut to
`True` when `canary_fraction ≥ 1.0`, to `False` when `≤ 0.0`, and
otherwise compare the hashed token value against the fraction. -/
def shouldEnforceCanary (fraction : ℚ) (token : String) : Bool :=
  if fraction ≥ 1 then true
  else if fraction ≤ 0 then false
  else decide (canaryVal token < fraction)

/-- `decide_action` (`policy.py` lines 122–220).  `now` stands for
`time.time()` inside `_within_exception_quota`.  The audit write
(`record_audit`) is best-effort, write-only and does not influence the
returned decision or the ledger; it is not part of the returned state. -/
def decideAction (cfg : PolicyConfig) (now : ℚ) (risk : ℤ) (token : String)
    (meta : MetadataSummary) (actor : Option String) (ledger : ExceptionLedger) :
    Decision × ExceptionLedger :=
  let token_hash := opaqueId token
  let rawReason :=
    if risk ≥ cfg.threshAllow then ("allow", "risk >= allow_threshold")
    else if risk ≥ cfg.threshReauth then ("require_reauth", "risk in reauth range")
    else ("block", "risk < reauth_threshold (suspicious)")
  let rawReasonLedger :=
    if meta.exception_flag then
      let quotaKey := pyOrStr actor token
      let wq := withinExceptionQuota cfg.exceptionQuota cfg.exceptionWindow now quotaKey ledger
      if wq.1 then
        if rawReason.1 = "block" then
          ("pending_approval", "exception requested by user; queued for admin review", wq.2)
        else
          (rawReason.1, "exception used; allowed but logged", wq.2)
      else
        ("block", "exception quota exceeded; blocked", wq.2)
    else (rawReason.1, rawReason.2, ledger)
  let enforce := if cfg.shadowMode then false else shouldEnforceCanary cfg.canaryFraction token
  let policy := rawReasonLedger.1
  let action := if enforce then rawReasonLedger.1 else "allow"
  ({ action := action, policy := policy, enforced := enforce,
     reason := rawReasonLedger.2.1, token_hash := token_hash },
   rawReasonLedger.2.2)

/-- The raw threshold action of `decide_action` step 1
(`policy.py` lines 148–156). -/
def rawThresholdAction (cfg : PolicyConfig) (risk : ℤ) : String :=
  if risk ≥ cfg.threshAllow then "allow"
  else if risk ≥ cfg.threshReauth then "require_reauth"
  else "block"

theorem canaryVal_nonneg (token : String) : 0 ≤ canaryVal token := by
  unfold canaryVal
  positivity

theorem canaryVal_lt_one (token : String) : canaryVal token < 1 := by
  unfold canaryVal
  rw [div_lt_one (by positivity)]
  have hlen : ((sha256 (strToBytes token)).take 8).length = 8 := by
    rw [List.length_take, sha256_length]
    norm_num
  have hbytes : ∀ b ∈ (sha256 (strToBytes token)).take 8, b < 256 :=
    fun b hb => sha256_mem_lt (List.mem_of_mem_take hb)
  have h := fromBytesBE_lt hbytes
  rw [hlen] at h
  have : (fromBytesBE ((sha256 (strToBytes token)).take 8) : ℚ) < ((256 ^ 8 : Nat) : ℚ) := by
    exact_mod_cast h
  calc (fromBytesBE ((sha256 (strToBytes token)).take 8) : ℚ)
      < ((256 ^ 8 : Nat) : ℚ) := this
    _ = 2 ^ 64 := by norm_num

end Policy

/-- C4: enforcement gating of `decide_action`.  With no exception flag
set: when `shadow_mode` is true, or the canary check refuses the token,
the decision is returned with `enforced = false` and `action = "allow"`
while `policy` retains the raw threshold action; otherwise the raw
threshold action is returned as `action` with `enforced = true`.  And
`_should_enforce_canary` (including its `≥ 1.0` / `≤ 0.0` shortcuts)
equals the deterministic predicate
`(first 8 bytes of SHA-256(token) big-endian) / 2^64 < canary_fraction`. -/
theorem c4_enforcement_gating :
    (∀ (cfg : PolicyConfig) (now : ℚ) (risk : ℤ) (token : String) (meta : MetadataSummary)
        (actor : Option String) (ledger : ExceptionLedger),
      meta.exception_flag = false → cfg.shadowMode = true →
        (Policy.decideAction cfg now risk token meta actor ledger).1.enforced = false ∧
        (Policy.decideAction cfg now risk token meta actor ledger).1.action = "allow" ∧
        (Policy.decideAction cfg now risk token meta actor ledger).1.policy
          = Policy.rawThresholdAction cfg risk) ∧
    (∀ (cfg : PolicyConfig) (now : ℚ) (risk : ℤ) (token : String) (meta : MetadataSummary)
        (actor : Option String) (ledger : ExceptionLedger),
      meta.exception_flag = false → cfg.shadowMode = false →
      Policy.shouldEnforceCanary cfg.canaryFraction token = false →
        (Policy.decideAction cfg now risk token meta actor ledger).1.enforced = false ∧
        (Policy.decideAction cfg now risk token meta actor ledger).1.action = "allow" ∧
        (Policy.decideAction cfg now risk token meta actor ledger).1.policy
          = Policy.rawThresholdAction cfg risk) ∧
    (∀ (cfg : PolicyConfig) (now : ℚ) (risk : ℤ) (token : String) (meta : MetadataSummary)
        (actor : Option String) (ledger : ExceptionLedger),
      meta.exception_flag = false → cfg.shadowMode = false →
      Policy.shouldEnforceCanary cfg.canaryFraction token = true →
        (Policy.decideAction cfg now risk token meta actor ledger).1.enforced = true ∧
        (Policy.decideAction cfg now risk token meta actor ledger).1.action
          = Policy.rawThresholdAction cfg risk ∧
        (Policy.decideAction cfg now risk token meta actor ledger).1.policy
          = Policy.rawThresholdAction cfg risk) ∧
    (∀ (f : ℚ) (t : String),
      Policy.shouldEnforceCanary f t = decide (Policy.canaryVal t < f)) := by
  have hraw : ∀ (cfg : PolicyConfig) (risk : ℤ),
      (if risk ≥ cfg.threshAllow then ("allow", "risk >= allow_threshold")
       else if risk ≥ cfg.threshReauth then ("require_reauth", "risk in reauth range")
       else ("block", "risk < reauth_threshold (suspicious)")).1
        = Policy.rawThresholdAction cfg risk := by
    intro cfg risk
    unfold Policy.rawThresholdAction
    by_cases h1 : risk ≥ cfg.threshAllow
    · simp [h1]
    · by_cases h2 : risk ≥ cfg.threshReauth <;> simp [h1, h2]
  refine ⟨?_, ?_, ?_, ?_⟩
  · intro cfg now risk token meta actor ledger hflag hshadow
    unfold Policy.decideAction
    simp only [hflag, Bool.false_eq_true, if_false, hshadow, if_true]
    exact ⟨trivial, trivial, hraw cfg risk⟩
  · intro cfg now risk token meta actor ledger hflag hshadow hcan
    unfold Policy.decideAction
    simp only [hflag, Bool.false_eq_true, if_false, hshadow, hcan]
    exact ⟨trivial, trivial, hraw cfg risk⟩
  · intro cfg now risk token meta actor ledger hflag hshadow hcan
    unfold Policy.decideAction
    simp only [hflag, Bool.false_eq_true, if_false, hshadow, hcan, if_true]
    exact ⟨trivial, hraw cfg risk, hraw cfg risk⟩
  · intro f t
    unfold Policy.shouldEnforceCanary
    by_cases h1 : f ≥ 1
    · have hlt : Policy.canaryVal t < f := lt_of_lt_of_le (Policy.canaryVal_lt_one t) h1
      simp [h1, hlt]
    · by_cases h2 : f ≤ 0
      · have hge : ¬ Policy.canaryVal t < f :=
          not_lt.mpr (le_trans h2 (Policy.canaryVal_nonneg t))
        simp [h1, h2, hge]
      · simp [h1, h2]

/-- C4 witness: thresholds allow=70/reauth=40, risk 10 (block range),
token "alpha", no exception flag.  Shadow mode gives
`enforced=false, action="allow", policy=block`; canary fraction 0 gives
the same; canary fraction 1 with shadow off gives
`enforced=true, action=block`; and the canary shortcut agrees with the
hash predicate at fraction 0. -/
theorem c4_enforcement_gating_witness :
    ((⟨false, none, none⟩ : MetadataSummary).exception_flag = false ∧
      (⟨70, 40, true, 1, 5, 86400⟩ : PolicyConfig).shadowMode = true ∧
      (Policy.decideAction ⟨70, 40, true, 1, 5, 86400⟩ 0 10 "alpha" ⟨false, none, none⟩
          none []).1.enforced = false ∧
      (Policy.decideAction ⟨70, 40, true, 1, 5, 86400⟩ 0 10 "alpha" ⟨false, none, none⟩
          none []).1.action = "allow" ∧
      (Policy.decideAction ⟨70, 40, true, 1, 5, 86400⟩ 0 10 "alpha" ⟨false, none, none⟩
          none []).1.policy = Policy.rawThresholdAction ⟨70, 40, true, 1, 5, 86400⟩ 10) ∧
    (Policy.shouldEnforceCanary (0 : ℚ) "alpha" = false ∧
      (Policy.decideAction ⟨70, 40, false, 0, 5, 86400⟩ 0 10 "alpha" ⟨false, none, none⟩
          none []).1.enforced = false ∧
      (Policy.decideAction ⟨70, 40, false, 0, 5, 86400⟩ 0 10 "alpha" ⟨false, none, none⟩
          none []).1.action = "allow") ∧
    (Policy.shouldEnforceCanary (1 : ℚ) "alpha" = true ∧
      (Policy.decideAction ⟨70, 40, false, 1, 5, 86400⟩ 0 10 "alpha" ⟨false, none, none⟩
          none []).1.enforced = true ∧
      (Policy.decideAction ⟨70, 40, false, 1, 5, 86400⟩ 0 10 "alpha" ⟨false, none, none⟩
          none []).1.action = Policy.rawThresholdAction ⟨70, 40, false, 1, 5, 86400⟩ 10) ∧
    Policy.shouldEnforceCanary (0 : ℚ) "alpha"
      = decide (Policy.canaryVal "alpha" < (0 : ℚ)) := by
  have hcan0 : Policy.shouldEnforceCanary (0 : ℚ) "alpha" = false := by
    unfold Policy.shouldEnforceCanary
    norm_num
  have hcan1 : Policy.shouldEnforceCanary (1 : ℚ) "alpha" = true := by
    unfold Policy.shouldEnforceCanary
    norm_num
  have h1 := c4_enforcement_gating.1 ⟨70, 40, true, 1, 5, 86400⟩ 0 10 "alpha"
    ⟨false, none, none⟩ none [] rfl rfl
  have h2 := c4_enforcement_gating.2.1 ⟨70, 40, false, 0, 5, 86400⟩ 0 10 "alpha"
    ⟨false, none, none⟩ none [] rfl rfl hcan0
  have h3 := c4_enforcement_gating.2.2.1 ⟨70, 40, false, 1, 5, 86400⟩ 0 10 "alpha"
    ⟨false, none, none⟩ none [] rfl rfl hcan1
  have h4 := c4_enforcement_gating.2.2.2 (0 : ℚ) "alpha"
  exact ⟨⟨rfl, rfl, h1.1, h1.2.1, h1.2.2⟩, ⟨hcan0, h2.1, h2.2.1⟩,
    ⟨hcan1, h3.1, h3.2.1⟩, h4⟩

namespace Policy

/-- Exception events for `key` no older than `t0`: the measure used to
reason about the sliding window. -/
def gKey (t0 : ℚ) (key : String) (ledger : ExceptionLedger) : Nat :=
  List.countP (fun ts => decide (t0 ≤ ts)) ((dictGet key ledger).getD [])

/-- Per-call facts about `_within_exception_quota` for a call time
inside the window `[t0, t0 + w]`: fresh events (`≥ t0`) survive the
purge, they grow by one exactly on success, success implies fewer than
`quota` fresh events beforehand, and `quota` many fresh events force a
refusal. -/
theorem quota_step (q : Nat) (w now t0 : ℚ) (key : String) (ledger : ExceptionLedger)
    (h1 : t0 ≤ now) (h2 : now ≤ t0 + w) :
    gKey t0 key (withinExceptionQuota q w now key ledger).2
      = gKey t0 key ledger
        + (if (withinExceptionQuota q w now key ledger).1 then 1 else 0) ∧
    ((withinExceptionQuota q w now key ledger).1 = true → gKey t0 key ledger < q) ∧
    (q ≤ gKey t0 key ledger → (withinExceptionQuota q w now key ledger).1 = false) := by
  have hwin : now - w ≤ t0 := by linarith
  set events := (dictGet key ledger).getD [] with hev
  set filtered := events.filter (fun ts => decide (ts ≥ now - w)) with hfildef
  have hfil : List.countP (fun ts => decide (t0 ≤ ts)) filtered
      = List.countP (fun ts => decide (t0 ≤ ts)) events := by
    rw [hfildef, List.countP_filter]
    apply List.countP_congr
    intro ts _
    by_cases h : t0 ≤ ts
    · have : now - w ≤ ts := le_trans hwin h
      simp [h, this, ge_iff_le]
    · simp [h]
  have hg : gKey t0 key ledger = List.countP (fun ts => decide (t0 ≤ ts)) events := rfl
  have hrun : withinExceptionQuota q w now key ledger
      = if filtered.length ≥ q then (false, dictSet key filtered ledger)
        else (true, dictSet key (filtered ++ [now]) ledger) := by
    rw [withinExceptionQuota, ← hev, ← hfildef]
  by_cases hq : filtered.length ≥ q
  · rw [hrun, if_pos hq]
    have hcnt : gKey t0 key (dictSet key filtered ledger)
        = List.countP (fun ts => decide (t0 ≤ ts)) filtered := by
      unfold gKey
      rw [dictGet_dictSet_self, Option.getD_some]
    refine ⟨?_, ?_, ?_⟩
    · simp only [hcnt, hfil, ← hg]
      simp
    · intro h
      simp at h
    · intro _
      rfl
  · rw [hrun, if_neg hq]
    have hlt : filtered.length < q := by omega
    have hcnt : gKey t0 key (dictSet key (filtered ++ [now]) ledger)
        = List.countP (fun ts => decide (t0 ≤ ts)) filtered + 1 := by
      unfold gKey
      rw [dictGet_dictSet_self, Option.getD_some, List.countP_append]
      simp [h1]
    have hle : gKey t0 key ledger < q := by
      calc gKey t0 key ledger
          = List.countP (fun ts => decide (t0 ≤ ts)) filtered := by rw [hg, hfil]
        _ ≤ filtered.length := List.countP_le_length _
        _ < q := hlt
    refine ⟨?_, ?_, ?_⟩
    · simp only [hcnt, hfil, ← hg]
      simp
    · intro _
      exact hle
    · intro hge
      omega

/-- A sequence of `_within_exception_quota` calls at the given times
for a fixed key (the per-call results and the final ledger). -/
def exceptionCalls (q : Nat) (w : ℚ) (key : String) :
    List ℚ → ExceptionLedger → List Bool × ExceptionLedger
  | [], ledger => ([], ledger)
  | t :: ts, ledger =>
    let r := withinExceptionQuota q w t key ledger
    let rest := exceptionCalls q w key ts r.2
    (r.1 :: rest.1, rest.2)

/-- Over any call sequence inside one window `[t0, t0 + w]`: the fresh
event count grows by exactly the number of successes, and the number of
successes can never push the fresh event count past `quota`. -/
theorem exceptionCalls_invariant (q : Nat) (w t0 : ℚ) (key : String)
    (times : List ℚ) (ledger : ExceptionLedger)
    (hw : ∀ t ∈ times, t0 ≤ t ∧ t ≤ t0 + w) :
    gKey t0 key (exceptionCalls q w key times ledger).2
      = gKey t0 key ledger
        + (exceptionCalls q w key times ledger).1.countP (fun b => b) ∧
    (exceptionCalls q w key times ledger).1.countP (fun b => b)
      + min q (gKey t0 key ledger) ≤ q := by
  induction times generalizing ledger with
  | nil =>
    simp only [exceptionCalls, List.countP_nil]
    exact ⟨by omega, by omega⟩
  | cons t ts ih =>
    have ht := hw t (List.mem_cons_self t ts)
    have hts : ∀ t' ∈ ts, t0 ≤ t' ∧ t' ≤ t0 + w :=
      fun t' ht' => hw t' (List.mem_cons_of_mem t ht')
    obtain ⟨hstep1, hstep2, _⟩ := quota_step q w t t0 key ledger ht.1 ht.2
    obtain ⟨ih1, ih2⟩ := ih (withinExceptionQuota q w t key ledger).2 hts
    have hcnt : (exceptionCalls q w key (t :: ts) ledger).1.countP (fun b => b)
        = (exceptionCalls q w key ts (withinExceptionQuota q w t key ledger).2).1.countP
            (fun b => b)
          + (if (withinExceptionQuota q w t key ledger).1 then 1 else 0) := by
      simp only [exceptionCalls, List.countP_cons]
    have hfin : (exceptionCalls q w key (t :: ts) ledger).2
        = (exceptionCalls q w key ts (withinExceptionQuota q w t key ledger).2).2 := rfl
    cases hok : (withinExceptionQuota q w t key ledger).1 with
    | true =>
      have hlt := hstep2 hok
      simp only [hok, if_true] at hstep1 hcnt
      constructor
      · rw [hfin]
        omega
      · omega
    | false =>
      simp only [hok, Bool.false_eq_true, if_false] at hstep1 hcnt
      constructor
      · rw [hfin]
        omega
      · omega

end Policy

namespace Policy

/-- Per-call reduction of `decide_action` for an exception-flagged
submission in the block range (risk below both thresholds) under full
enforcement: the action is `pending_approval` exactly when the quota
check succeeds, otherwise `block`, and the ledger evolves exactly as
`_within_exception_quota` leaves it. -/
theorem decideAction_exception_lowrisk (cfg : PolicyConfig) (now : ℚ) (risk : ℤ)
    (token : String) (meta : MetadataSummary) (actor : Option String)
    (ledger : ExceptionLedger)
    (hflag : meta.exception_flag = true) (hshadow : cfg.shadowMode = false)
    (hcan : shouldEnforceCanary cfg.canaryFraction token = true)
    (hallow : risk < cfg.threshAllow) (hreauth : risk < cfg.threshReauth) :
    (decideAction cfg now risk token meta actor ledger).1.action
      = (if (withinExceptionQuota cfg.exceptionQuota cfg.exceptionWindow now
              (pyOrStr actor token) ledger).1
         then "pending_approval" else "block") ∧
    (decideAction cfg now risk token meta actor ledger).2
      = (withinExceptionQuota cfg.exceptionQuota cfg.exceptionWindow now
          (pyOrStr actor token) ledger).2 := by
  have hA : ¬ risk ≥ cfg.threshAllow := not_le.mpr hallow
  have hR : ¬ risk ≥ cfg.threshReauth := not_le.mpr hreauth
  unfold decideAction
  simp only [hA, hR, if_false, hflag, if_true, hshadow, hcan]
  by_cases hq : (withinExceptionQuota cfg.exceptionQuota cfg.exceptionWindow now
      (pyOrStr actor token) ledger).1 <;> simp [hq]

/-- A sequence of full `decide_action` calls at the given times with a
fixed risk, token, metadata and actor: the list of returned actions and
the final ledger. -/
def decideSeq (cfg : PolicyConfig) (risk : ℤ) (token : String) (meta : MetadataSummary)
    (actor : Option String) : List ℚ → ExceptionLedger → List String × ExceptionLedger
  | [], ledger => ([], ledger)
  | t :: ts, ledger =>
    let r := decideAction cfg t risk token meta actor ledger
    let rest := decideSeq cfg risk token meta actor ts r.2
    (r.1.action :: rest.1, rest.2)

/-- The decision sequence of exception-flagged block-range submissions
is the image of the quota-check sequence. -/
theorem decideSeq_eq_exceptionCalls (cfg : PolicyConfig) (risk : ℤ) (token : String)
    (meta : MetadataSummary) (actor : Option String) (times : List ℚ)
    (ledger : ExceptionLedger)
    (hflag : meta.exception_flag = true) (hshadow : cfg.shadowMode = false)
    (hcan : shouldEnforceCanary cfg.canaryFraction token = true)
    (hallow : risk < cfg.threshAllow) (hreauth : risk < cfg.threshReauth) :
    (decideSeq cfg risk token meta actor times ledger).1
      = ((exceptionCalls cfg.exceptionQuota cfg.exceptionWindow (pyOrStr actor token)
          times ledger).1.map (fun ok => if ok then "pending_approval" else "block")) ∧
    (decideSeq cfg risk token meta actor times ledger).2
      = (exceptionCalls cfg.exceptionQuota cfg.exceptionWindow (pyOrStr actor token)
          times ledger).2 := by
  induction times generalizing ledger with
  | nil => exact ⟨rfl, rfl⟩
  | cons t ts ih =>
    obtain ⟨hact, hled⟩ := decideAction_exception_lowrisk cfg t risk token meta actor
      ledger hflag hshadow hcan hallow hreauth
    obtain ⟨ih1, ih2⟩ :=
      ih (decideAction cfg t risk token meta actor ledger).2
    simp only [decideSeq, exceptionCalls, List.map_cons]
    rw [hled] at ih1 ih2 ⊢
    exact ⟨by rw [hact, ih1], by rw [ih2]⟩

/-- Counting `pending_approval` in the mapped action list equals
counting successes. -/
theorem countP_pending_map (oks : List Bool) :
    ((oks.map (fun ok => if ok then "pending_approval" else "block")).countP
        (fun s => decide (s = "pending_approval")))
      = oks.countP (fun b => b) := by
  induction oks with
  | nil => rfl
  | cons b l ih =>
    cases b <;> simp [List.countP_cons, ih]

end Policy

/-- C5: exception quota.  (i) A call is within quota iff strictly fewer
than `exception_quota` recorded timestamps lie within the last
`exception_window` seconds.  (ii) Under enforcement, an
exception-flagged submission in the block range is downgraded to
`pending_approval` exactly when within quota, else `block`.  (iii) Over
any sequence of such submissions whose times lie within one sliding
window `[t0, t0 + window]` (keyed by the actor, or the token when no
actor is given), at most `exception_quota` are downgraded to
`pending_approval`.  (iv) Once `exception_quota` downgrades have
happened, the next such submission within the window yields `block`. -/
theorem c5_exception_quota :
    (∀ (q : Nat) (w now : ℚ) (key : String) (ledger : ExceptionLedger),
      (Policy.withinExceptionQuota q w now key ledger).1 = true ↔
        (((dictGet key ledger).getD []).filter
          (fun ts => decide (ts ≥ now - w))).length < q) ∧
    (∀ (cfg : PolicyConfig) (now : ℚ) (risk : ℤ) (token : String) (meta : MetadataSummary)
        (actor : Option String) (ledger : ExceptionLedger),
      meta.exception_flag = true → cfg.shadowMode = false →
      Policy.shouldEnforceCanary cfg.canaryFraction token = true →
      risk < cfg.threshAllow → risk < cfg.threshReauth →
        (Policy.decideAction cfg now risk token meta actor ledger).1.action
          = (if (Policy.withinExceptionQuota cfg.exceptionQuota cfg.exceptionWindow now
                  (pyOrStr actor token) ledger).1
             then "pending_approval" else "block")) ∧
    (∀ (cfg : PolicyConfig) (risk : ℤ) (token : String) (meta : MetadataSummary)
        (actor : Option String) (times : List ℚ) (t0 : ℚ) (ledger : ExceptionLedger),
      meta.exception_flag = true → cfg.shadowMode = false →
      Policy.shouldEnforceCanary cfg.canaryFraction token = true →
      risk < cfg.threshAllow → risk < cfg.threshReauth →
      (∀ t ∈ times, t0 ≤ t ∧ t ≤ t0 + cfg.exceptionWindow) →
        (Policy.decideSeq cfg risk token meta actor times ledger).1.countP
            (fun s => decide (s = "pending_approval"))
          ≤ cfg.exceptionQuota) ∧
    (∀ (cfg : PolicyConfig) (risk : ℤ) (token : String) (meta : MetadataSummary)
        (actor : Option String) (times : List ℚ) (t0 : ℚ) (ledger : ExceptionLedger)
        (tnext : ℚ),
      meta.exception_flag = true → cfg.shadowMode = false →
      Policy.shouldEnforceCanary cfg.canaryFraction token = true →
      risk < cfg.threshAllow → risk < cfg.threshReauth →
      (∀ t ∈ times, t0 ≤ t ∧ t ≤ t0 + cfg.exceptionWindow) →
      (Policy.decideSeq cfg risk token meta actor times ledger).1.countP
          (fun s => decide (s = "pending_approval")) = cfg.exceptionQuota →
      t0 ≤ tnext → tnext ≤ t0 + cfg.exceptionWindow →
        (Policy.decideAction cfg tnext risk token meta actor
          (Policy.decideSeq cfg risk token meta actor times ledger).2).1.action
          = "block") := by
  refine ⟨?_, ?_, ?_, ?_⟩
  · intro q w now key ledger
    unfold Policy.withinExceptionQuota
    by_cases hq : (((dictGet key ledger).getD []).filter
        (fun ts => decide (ts ≥ now - w))).length ≥ q
    · simp only [hq, if_pos hq]
      constructor
      · intro h
        simp at h
      · intro h
        omega
    · simp only [hq, if_neg hq]
      constructor
      · intro _
        omega
      · intro _
        rfl
  · intro cfg now risk token meta actor ledger hflag hshadow hcan hallow hreauth
    exact (Policy.decideAction_exception_lowrisk cfg now risk token meta actor ledger
      hflag hshadow hcan hallow hreauth).1
  · intro cfg risk token meta actor times t0 ledger hflag hshadow hcan hallow hreauth hw
    obtain ⟨h1, _⟩ := Policy.decideSeq_eq_exceptionCalls cfg risk token meta actor times
      ledger hflag hshadow hcan hallow hreauth
    rw [h1, Policy.countP_pending_map]
    have hinv := (Policy.exceptionCalls_invariant cfg.exceptionQuota cfg.exceptionWindow
      t0 (pyOrStr actor token) times ledger hw).2
    omega
  · intro cfg risk token meta actor times t0 ledger tnext hflag hshadow hcan hallow
      hreauth hw hcount ht1 ht2
    obtain ⟨h1, h2⟩ := Policy.decideSeq_eq_exceptionCalls cfg risk token meta actor times
      ledger hflag hshadow hcan hallow hreauth
    rw [h1, Policy.countP_pending_map] at hcount
    obtain ⟨hinv1, _⟩ := Policy.exceptionCalls_invariant cfg.exceptionQuota
      cfg.exceptionWindow t0 (pyOrStr actor token) times ledger hw
    have hge : cfg.exceptionQuota ≤ Policy.gKey t0 (pyOrStr actor token)
        (Policy.exceptionCalls cfg.exceptionQuota cfg.exceptionWindow
          (pyOrStr actor token) times ledger).2 := by omega
    have hfalse := (Policy.quota_step cfg.exceptionQuota cfg.exceptionWindow tnext t0
      (pyOrStr actor token)
      (Policy.exceptionCalls cfg.exceptionQuota cfg.exceptionWindow
        (pyOrStr actor token) times ledger).2 ht1 ht2).2.2 hge
    obtain ⟨hact, _⟩ := Policy.decideAction_exception_lowrisk cfg tnext risk token meta
      actor (Policy.exceptionCalls cfg.exceptionQuota cfg.exceptionWindow
        (pyOrStr actor token) times ledger).2 hflag hshadow hcan hallow hreauth
    rw [h2, hact, hfalse]
    simp

/-- C5 witness: quota 0, window 100, thresholds allow=70/reauth=40,
risk 10, token "t", exception flag set, empty call history.  The quota
membership test is exercised concretely; the downgrade count over the
empty history is 0 ≤ 0 and equals the quota, so the very next
exception-flagged submission at time 1 is blocked. -/
theorem c5_exception_quota_witness :
    ((Policy.withinExceptionQuota 0 100 1 "t" []).1 = true ↔
      ((((dictGet "t" ([] : ExceptionLedger)).getD []).filter
        (fun ts => decide (ts ≥ (1 : ℚ) - 100))).length < 0)) ∧
    ((⟨true, none, none⟩ : MetadataSummary).exception_flag = true ∧
      (⟨70, 40, false, 1, 0, 100⟩ : PolicyConfig).shadowMode = false ∧
      Policy.shouldEnforceCanary (1 : ℚ) "t" = true ∧
      (10 : ℤ) < 70 ∧ (10 : ℤ) < 40 ∧
      (Policy.decideAction ⟨70, 40, false, 1, 0, 100⟩ 1 10 "t" ⟨true, none, none⟩ none []).1.action
        = (if (Policy.withinExceptionQuota 0 100 1 (pyOrStr none "t") []).1
           then "pending_approval" else "block")) ∧
    ((Policy.decideSeq ⟨70, 40, false, 1, 0, 100⟩ 10 "t" ⟨true, none, none⟩ none [] []).1.countP
        (fun s => decide (s = "pending_approval")) ≤ 0) ∧
    ((Policy.decideSeq ⟨70, 40, false, 1, 0, 100⟩ 10 "t" ⟨true, none, none⟩ none [] []).1.countP
        (fun s => decide (s = "pending_approval")) = 0 ∧
      (Policy.decideAction ⟨70, 40, false, 1, 0, 100⟩ 1 10 "t" ⟨true, none, none⟩ none
        (Policy.decideSeq ⟨70, 40, false, 1, 0, 100⟩ 10 "t" ⟨true, none, none⟩ none [] []).2).1.action
        = "block") := by
  have hcan : Policy.shouldEnforceCanary (1 : ℚ) "t" = true := by
    unfold Policy.shouldEnforceCanary
    norm_num
  have hwempty : ∀ t ∈ ([] : List ℚ), (0 : ℚ) ≤ t ∧ t ≤ 0 + (100 : ℚ) := by
    intro t ht
    simp at ht
  have hcount0 : (Policy.decideSeq (⟨70, 40, false, 1, 0, 100⟩ : PolicyConfig) 10 "t"
      ⟨true, none, none⟩ none [] []).1.countP
      (fun s => decide (s = "pending_approval")) = 0 := rfl
  refine ⟨c5_exception_quota.1 0 100 1 "t" [], ?_, ?_, ?_⟩
  · exact ⟨rfl, rfl, hcan, by decide, by decide,
      c5_exception_quota.2.1 ⟨70, 40, false, 1, 0, 100⟩ 1 10 "t" ⟨true, none, none⟩
        none [] rfl rfl hcan (by decide) (by decide)⟩
  · exact c5_exception_quota.2.2.1 ⟨70, 40, false, 1, 0, 100⟩ 10 "t" ⟨true, none, none⟩
      none [] 0 [] rfl rfl hcan (by decide) (by decide) hwempty
  · exact ⟨hcount0,
      c5_exception_quota.2.2.2 ⟨70, 40, false, 1, 0, 100⟩ 10 "t" ⟨true, none, none⟩
        none [] 0 [] 1 rfl rfl hcan (by decide) (by decide) hwempty hcount0
        (by norm_num) (by norm_num)⟩

/-! ## Metadata sanitizer (`metadata_sanitizer.py`) — claims C6 and C7 -/

/-- A Python metadata value: string, int, float or bool.  (In Python,
`bool` is a subclass of `int`; the embedding keeps them separate and
the branch functions below handle booleans exactly where Python's
`isinstance(value, (int, float))` would.) -/
inductive PyValue where
  | str (s : String)
  | int (n : ℤ)
  | float (q : ℚ)
  | bool (b : Bool)
  deriving DecidableEq, Repr

/-- Metadata dict: insertion-ordered field/value pairs. -/
abbrev Metadata : Type := List (String × PyValue)

/-- Boolean list-prefix test. -/
def isPrefixB : List Char → List Char → Bool
  | [], _ => true
  | _ :: _, [] => false
  | a :: as, b :: bs => a == b && isPrefixB as bs

/-- Boolean substring occurrence test (`p` occurs inside the second
list). -/
def hasInfixB (p : List Char) : List Char → Bool
  | [] => isPrefixB p []
  | c :: rest => isPrefixB p (c :: rest) || hasInfixB p rest

/-- Python `p in s` on strings. -/
def strContains (s p : String) : Bool := hasInfixB p.toList s.toList

/-- `any(pattern in field_name for pattern in patterns)`. -/
def matchesAny (fieldName : String) (patterns : List String) : Bool :=
  patterns.any (fun p => strContains fieldName p)

/-- Python `str.lower()`, faithful for the ASCII field names the
sanitizer classifies. -/
def pyLower (s : String) : String := String.mk (s.toList.map Char.toLower)

namespace MetadataSanitizer

/-- `MetadataAnalyzer._sensitive_fields`
(`metadata_sanitizer.py` lines 54–62). -/
def sensitiveFields : List String :=
  ["user_id", "username", "email", "phone", "device_id", "device_fingerprint",
   "ip_address", "mac_address", "location", "gps", "coordinates", "address",
   "browser_info", "user_agent", "session_id", "cookie", "token_raw",
   "timestamp_raw", "exact_time", "precise_location", "personal_info",
   "contact_info", "identity", "real_name", "social_security", "passport",
   "credit_card", "bank_account", "financial_info", "medical_info",
   "biometric_data", "face_id", "fingerprint", "voice_print"]

/-- `MetadataAnalyzer._medium_risk_fields` (lines 65–69). -/
def mediumRiskFields : List String :=
  ["timestamp", "time", "date", "created_at", "updated_at", "last_seen",
   "message_count", "frequency", "pattern", "behavior", "activity",
   "network_info", "connection_type", "bandwidth", "latency"]

/-- `MetadataAnalyzer._low_risk_fields` (lines 72–74). -/
def lowRiskFields : List String :=
  ["message_size", "padded_size", "ttl", "priority", "type", "category"]

/-- `_ai_assess_field` (lines 137–166), value- and name-based risk. -/
def aiAssessField (fieldName : String) (value : PyValue) : ℚ :=
  let risk : ℚ :=
    match value with
    | .str v =>
      let r : ℚ := 0
      let r := if v.length > 0 && v.toList.any Char.isDigit then r + 3/10 else r
      let r := if strContains v "@" then r + 8/10
        else if strContains v "." && decide ((v.splitOn ".").length ≥ 2) then r + 6/10
        else r
      if v.length = 36 && strContains v "-" then r + 1/2 else r
    | .int n => if 1000000000 < n ∧ n < 2000000000 then 2/5 else 0
    | .float q => if 1000000000 < q ∧ q < 2000000000 then 2/5 else 0
    | .bool _ => 0
  let keywords := ["id", "key", "secret", "private", "personal", "user", "client"]
  let risk := if keywords.any (fun kw => strContains (pyLower fieldName) kw)
    then risk + 3/10 else risk
  min 1 risk

/-- Field risk classes used by `_assess_field_risk`. -/
inductive RiskLevel where
  | high
  | medium
  | low
  deriving DecidableEq, Repr

/-- `_assess_field_risk` (lines 115–135): dictionary lookups by
substring match, then the value heuristic. -/
def assessFieldRisk (fieldLower : String) (value : PyValue) : RiskLevel :=
  if matchesAny fieldLower sensitiveFields then RiskLevel.high
  else if matchesAny fieldLower mediumRiskFields then RiskLevel.medium
  else if matchesAny fieldLower lowRiskFields then RiskLevel.low
  else
    let r := aiAssessField fieldLower value
    if r > 7/10 then RiskLevel.high
    else if r > 2/5 then RiskLevel.medium
    else RiskLevel.low

/-- The `risk_score` computed by `analyze_metadata` (lines 88–105):
+0.8 per high field, +0.4 per medium, +0.1 per low, capped at 1.0.
(The pattern-history bookkeeping of `_store_pattern` influences no
output of the sanitizer and is not modeled.) -/
def analyzeRiskScore (metadata : Metadata) : ℚ :=
  min 1 (metadata.foldl
    (fun acc p =>
      match assessFieldRisk (pyLower p.1) p.2 with
      | RiskLevel.high => acc + 8/10
      | RiskLevel.medium => acc + 2/5
      | RiskLevel.low => acc + 1/10)
    0)

/-- Python `round` (banker's rounding) on exact rationals. -/
def roundHalfEven (q : ℚ) : ℤ :=
  if q - ⌊q⌋ < 1/2 then ⌊q⌋
  else if q - ⌊q⌋ > 1/2 then ⌊q⌋ + 1
  else if Even ⌊q⌋ then ⌊q⌋ else ⌊q⌋ + 1

/-- Python `round(x, 2)` on exact rationals. -/
def roundTo2 (q : ℚ) : ℚ := (roundHalfEven (q * 100) : ℚ) / 100

/-- `secrets.randbelow(n)`, drawn from an explicit random source (the
head of the list, reduced mod `n` so the result is always `< n`). -/
def randbelow (n : Nat) (src : List Nat) : Nat × List Nat :=
  (src.headD 0 % n, src.tail)

/-- `_obfuscate_value` (lines 278–311) with
`ENABLE_METADATA_OBFUSCATION` on (the default).  Strings hash
deterministically to `"obf_" ++ first-8-hex(SHA-256(field ":" value))`;
floats add `randbelow(100)/1000` noise then round to 2 decimals;
integers add a `randbelow(10) - 5` offset.  Python booleans satisfy
`isinstance(value, (int, float))`, so they take the integer branch
(the explicit bool branch below it is unreachable). -/
def obfuscateValue (field : String) (value : PyValue) (rand : List Nat) :
    PyValue × List Nat :=
  match value with
  | .str v =>
    if v.length > 0 then
      (.str ("obf_" ++ (bytesToHex (sha256 (strToBytes (field ++ ":" ++ v)))).take 8),
       rand)
    else (.str v, rand)
  | .float q =>
    let r := randbelow 100 rand
    (.float (roundTo2 (q + (r.1 : ℚ) / 1000)), r.2)
  | .int n =>
    let r := randbelow 10 rand
    (.int (n + (r.1 : ℤ) - 5), r.2)
  | .bool b =>
    let r := randbelow 10 rand
    (.int ((if b then 1 else 0) + (r.1 : ℤ) - 5), r.2)

/-- `_quantize_value` (lines 313–336).  Floats of time-named fields
floor to the minute (as a Python int); other floats round to 2
decimals; integers floor to the nearest 10 (`//` is floor division,
`Int.fdiv`); strings bucket by length; booleans take the integer branch
(`(True // 10) * 10 = 0`). -/
def quantizeValue (field : String) (value : PyValue) : PyValue :=
  match value with
  | .float q =>
    if strContains (pyLower field) "time" || strContains (pyLower field) "timestamp" then
      .int (⌊q / 60⌋ * 60)
    else .float (roundTo2 q)
  | .int n => .int (n.fdiv 10 * 10)
  | .bool b => .int (((if b then (1 : ℤ) else 0).fdiv 10) * 10)
  | .str v =>
    if v.length ≤ 5 then .str "short"
    else if v.length ≤ 20 then .str "medium"
    else .str "long"

/-- Accumulator of the per-field loop of `sanitize_metadata`. -/
structure SanitizeAcc where
  sanitized : Metadata
  removed : List String
  obfuscated : List String
  quantized : List String
  applied : Bool
  rand : List Nat

/-- The per-field loop of `sanitize_metadata` (lines 239–271), in
field order: high-risk names are removed; medium-risk names are
obfuscated; low-risk names are quantized; unknown names are removed
when the aggregate analysis risk exceeds the threshold and obfuscated
otherwise. -/
def sanitizeFold (analysisRisk threshold : ℚ) : Metadata → SanitizeAcc → SanitizeAcc
  | [], acc => acc
  | (f, v) :: rest, acc =>
    let fl := pyLower f
    if matchesAny fl sensitiveFields then
      sanitizeFold analysisRisk threshold rest
        { acc with removed := acc.removed ++ [f], applied := true }
    else if matchesAny fl mediumRiskFields then
      let r := obfuscateValue f v acc.rand
      sanitizeFold analysisRisk threshold rest
        { acc with sanitized := acc.sanitized ++ [(f, r.1)],
                   obfuscated := acc.obfuscated ++ [f], applied := true, rand := r.2 }
    else if matchesAny fl lowRiskFields then
      sanitizeFold analysisRisk threshold rest
        { acc with sanitized := acc.sanitized ++ [(f, quantizeValue f v)],
                   quantized := acc.quantized ++ [f] }
    else if analysisRisk > threshold then
      sanitizeFold analysisRisk threshold rest
        { acc with removed := acc.removed ++ [f], applied := true }
    else
      let r := obfuscateValue f v acc.rand
      sanitizeFold analysisRisk threshold rest
        { acc with sanitized := acc.sanitized ++ [(f, r.1)],
                   obfuscated := acc.obfuscated ++ [f], rand := r.2 }

/-- `_calculate_final_risk_score` (lines 338–355). -/
def calcFinalRiskScore (sanitized : Metadata) : ℚ :=
  if sanitized.length = 0 then 0
  else
    min 1 ((sanitized.foldl
      (fun acc p =>
        if matchesAny (pyLower p.1) sensitiveFields then acc + 8/10
        else if matchesAny (pyLower p.1) mediumRiskFields then acc + 3/10
        else acc + 1/10)
      0) / sanitized.length)

/-- The sanitization report (lines 228–236 and 273–274). -/
structure SanitizationReport where
  original_fields : Nat
  sanitized_fields : Nat
  removed_fields : List String
  obfuscated_fields : List String
  quantized_fields : List String
  risk_score : ℚ
  sanitization_applied : Bool
  final_risk_score : ℚ

/-- `sanitize_metadata` (lines 213–276) with
`METADATA_SANITIZATION_ENABLED` on (the default). -/
def sanitizeMetadata (metadata : Metadata) (rand : List Nat)
    (riskThreshold : ℚ) : Metadata × SanitizationReport × List Nat :=
  let analysisRisk := analyzeRiskScore metadata
  let acc := sanitizeFold analysisRisk riskThreshold metadata
    ⟨[], [], [], [], false, rand⟩
  (acc.sanitized,
   { original_fields := metadata.length
     sanitized_fields := acc.sanitized.length
     removed_fields := acc.removed
     obfuscated_fields := acc.obfuscated
     quantized_fields := acc.quantized
     risk_score := analysisRisk
     sanitization_applied := acc.applied
     final_risk_score := calcFinalRiskScore acc.sanitized },
   acc.rand)

/-- `SENSITIVE_FIELD_THRESHOLD` default (line 30). -/
def defaultThreshold : ℚ := 7/10

end MetadataSanitizer

/-- C6 (counterexample): sanitizer idempotence fails.  For
`m = {type: "aaaaaaaaaaaaaaaaaaaaa"}` (a low-risk field with a 21-char
string value) the first sanitization quantizes the value to `"long"`,
but re-sanitizing the sanitized output re-buckets `"long"` (length 4)
to `"short"`, so
`sanitize(sanitize(m).sanitized).sanitized ≠ sanitize(m).sanitized`. -/
theorem c6_sanitize_not_idempotent :
    (MetadataSanitizer.sanitizeMetadata [("type", PyValue.str "aaaaaaaaaaaaaaaaaaaaa")]
        [] MetadataSanitizer.defaultThreshold).1 = [("type", PyValue.str "long")] ∧
    (MetadataSanitizer.sanitizeMetadata
        (MetadataSanitizer.sanitizeMetadata [("type", PyValue.str "aaaaaaaaaaaaaaaaaaaaa")]
          [] MetadataSanitizer.defaultThreshold).1
        [] MetadataSanitizer.defaultThreshold).1 = [("type", PyValue.str "short")] ∧
    (MetadataSanitizer.sanitizeMetadata
        (MetadataSanitizer.sanitizeMetadata [("type", PyValue.str "aaaaaaaaaaaaaaaaaaaaa")]
          [] MetadataSanitizer.defaultThreshold).1
        [] MetadataSanitizer.defaultThreshold).1
      ≠ (MetadataSanitizer.sanitizeMetadata [("type", PyValue.str "aaaaaaaaaaaaaaaaaaaaa")]
          [] MetadataSanitizer.defaultThreshold).1 := by
  refine ⟨by decide, by decide, by decide⟩

namespace MetadataSanitizer

/-- Metadata whose fields are each either removed (high-sensitivity
name) or integer-valued with a low-risk name: the fragment on which
sanitization is idempotent. -/
def highOrLowInt (m : Metadata) : Prop :=
  ∀ p ∈ m,
    matchesAny (pyLower p.1) sensitiveFields = true ∨
    (matchesAny (pyLower p.1) sensitiveFields = false ∧
     matchesAny (pyLower p.1) mediumRiskFields = false ∧
     matchesAny (pyLower p.1) lowRiskFields = true ∧
     ∃ n : ℤ, p.2 = PyValue.int n)

instance (m : Metadata) : Decidable (highOrLowInt m) := by
  unfold highOrLowInt
  have : ∀ p : String × PyValue, Decidable (∃ n : ℤ, p.2 = PyValue.int n) := by
    intro p
    match h : p.2 with
    | PyValue.int n => exact isTrue ⟨n, rfl⟩
    | PyValue.str s => exact isFalse (by simp [h])
    | PyValue.float q => exact isFalse (by simp [h])
    | PyValue.bool b => exact isFalse (by simp [h])
  exact List.decidableBAll _ m

/-- On `highOrLowInt` metadata the sanitize loop reduces to: drop
high-sensitivity fields, quantize the rest. -/
theorem sanitizeFold_highOrLowInt (r th : ℚ) (fields : Metadata) (acc : SanitizeAcc)
    (h : highOrLowInt fields) :
    (sanitizeFold r th fields acc).sanitized
      = acc.sanitized ++ fields.filterMap (fun p =>
          if matchesAny (pyLower p.1) sensitiveFields then none
          else some (p.1, quantizeValue p.1 p.2)) := by
  induction fields generalizing acc with
  | nil => simp [sanitizeFold]
  | cons hd tl ih =>
    obtain ⟨f, v⟩ := hd
    have hhd := h (f, v) (List.mem_cons_self _ _)
    have htl : highOrLowInt tl := fun p hp => h p (List.mem_cons_of_mem _ hp)
    rcases hhd with hsens | ⟨hsens, hmed, hlow, n, hval⟩
    · have hstep : sanitizeFold r th ((f, v) :: tl) acc
          = sanitizeFold r th tl { acc with removed := acc.removed ++ [f], applied := true } := by
        simp [sanitizeFold, hsens]
      rw [hstep, ih _ htl, List.filterMap_cons]
      simp [hsens]
    · have hstep : sanitizeFold r th ((f, v) :: tl) acc
          = sanitizeFold r th tl
              { acc with sanitized := acc.sanitized ++ [(f, quantizeValue f v)],
                         quantized := acc.quantized ++ [f] } := by
        simp [sanitizeFold, hsens, hmed, hlow]
      rw [hstep, ih _ htl, List.filterMap_cons]
      simp [hsens]

/-- `filterMap` by a function that fixes every list member is the
identity. -/
theorem filterMapIdOfMem {α : Type} (f : α → Option α) :
    ∀ (l : List α), (∀ a ∈ l, f a = some a) → l.filterMap f = l := by
  intro l h
  induction l with
  | nil => rfl
  | cons hd tl ih =>
    rw [List.filterMap_cons, h hd (List.mem_cons_self _ _),
      ih (fun a ha => h a (List.mem_cons_of_mem _ ha))]

/-- Every surviving field of a `highOrLowInt` sanitization is a
low-risk-named field whose value is an integer multiple of 10 — a fixed
point of quantization. -/
theorem sanitized_fields_fixed (m : Metadata) (rand : List Nat) (th : ℚ)
    (h : highOrLowInt m) :
    ∀ p ∈ (sanitizeMetadata m rand th).1,
      matchesAny (pyLower p.1) sensitiveFields = false ∧
      matchesAny (pyLower p.1) mediumRiskFields = false ∧
      matchesAny (pyLower p.1) lowRiskFields = true ∧
      ∃ k : ℤ, p.2 = PyValue.int (k * 10) := by
  intro p hp
  simp only [sanitizeMetadata] at hp
  rw [sanitizeFold_highOrLowInt _ _ _ _ h] at hp
  simp only [List.nil_append, List.mem_filterMap] at hp
  obtain ⟨q, hq, hres⟩ := hp
  by_cases hs : matchesAny (pyLower q.1) sensitiveFields
  · rw [if_pos hs] at hres
    simp at hres
  · rw [if_neg hs] at hres
    rcases h q hq with hq' | ⟨_, hmed, hlow, n, hval⟩
    · exact absurd hq' (by simpa using hs)
    · obtain rfl : p = (q.1, quantizeValue q.1 q.2) := by
        simpa using hres.symm
      refine ⟨by simpa using hs, hmed, hlow, n.fdiv 10, ?_⟩
      simp [hval, quantizeValue]

end MetadataSanitizer

/-- C6 (amended): sanitization is idempotent on metadata whose fields
each either carry a high-sensitivity name (removed) or a low-risk name
with an integer value (quantized): re-sanitizing the sanitized output
returns it unchanged.  In general idempotence fails (the
counterexample re-buckets a quantized string and obfuscated fields are
re-obfuscated). -/
theorem c6_sanitize_idempotent_on_high_low_int
    (m : Metadata) (rand1 rand2 : List Nat) (th1 th2 : ℚ)
    (h : MetadataSanitizer.highOrLowInt m) :
    (MetadataSanitizer.sanitizeMetadata
        (MetadataSanitizer.sanitizeMetadata m rand1 th1).1 rand2 th2).1
      = (MetadataSanitizer.sanitizeMetadata m rand1 th1).1 := by
  have hfix := MetadataSanitizer.sanitized_fields_fixed m rand1 th1 h
  set s1 := (MetadataSanitizer.sanitizeMetadata m rand1 th1).1 with hs1
  have h1 : MetadataSanitizer.highOrLowInt s1 := by
    intro p hp
    obtain ⟨hsens, hmed, hlow, k, hval⟩ := hfix p hp
    exact Or.inr ⟨hsens, hmed, hlow, k * 10, hval⟩
  show (MetadataSanitizer.sanitizeMetadata s1 rand2 th2).1 = s1
  simp only [MetadataSanitizer.sanitizeMetadata]
  rw [MetadataSanitizer.sanitizeFold_highOrLowInt _ _ _ _ h1]
  simp only [List.nil_append]
  apply MetadataSanitizer.filterMapIdOfMem
  intro p hp
  obtain ⟨hsens, hmed, hlow, k, hval⟩ := hfix p hp
  rw [if_neg (by simp [hsens])]
  have hq : MetadataSanitizer.quantizeValue p.1 p.2 = p.2 := by
    rw [hval]
    simp only [MetadataSanitizer.quantizeValue]
    rw [Int.mul_fdiv_cancel _ (by norm_num)]
  rw [hq]

/-- C6 amended witness: `{user_id: "x", ttl: 123}` — `user_id` is
removed, `ttl` quantizes to 120, and a second sanitization leaves the
result unchanged. -/
theorem c6_sanitize_idempotent_witness :
    MetadataSanitizer.highOrLowInt [("user_id", PyValue.str "x"), ("ttl", PyValue.int 123)] ∧
    (MetadataSanitizer.sanitizeMetadata
        (MetadataSanitizer.sanitizeMetadata
          [("user_id", PyValue.str "x"), ("ttl", PyValue.int 123)]
          [] MetadataSanitizer.defaultThreshold).1
        [] MetadataSanitizer.defaultThreshold).1
      = (MetadataSanitizer.sanitizeMetadata
          [("user_id", PyValue.str "x"), ("ttl", PyValue.int 123)]
          [] MetadataSanitizer.defaultThreshold).1 :=
  ⟨by decide,
   c6_sanitize_idempotent_on_high_low_int
     [("user_id", PyValue.str "x"), ("ttl", PyValue.int 123)]
     [] [] MetadataSanitizer.defaultThreshold MetadataSanitizer.defaultThreshold
     (by decide)⟩

/-- C7 (counterexample): sanitizing
`{user_id: "u123", email: "a@b.c", padded_size: 2048, timestamp: 1700000000}`
does not produce the claimed values: `padded_size` floors to **2040**
(not 2050), and `timestamp` (a medium-risk name) is **obfuscated** with
a random ±5 offset (here drawn as +2 from the source `[7]`), not
quantized to the minute (which would be 1699999980). -/
theorem c7_sanitize_concrete_counterexample :
    dictGet "padded_size"
      (MetadataSanitizer.sanitizeMetadata
        [("user_id", PyValue.str "u123"), ("email", PyValue.str "a@b.c"),
         ("padded_size", PyValue.int 2048), ("timestamp", PyValue.int 1700000000)]
        [7] MetadataSanitizer.defaultThreshold).1
      = some (PyValue.int 2040) ∧
    dictGet "padded_size"
      (MetadataSanitizer.sanitizeMetadata
        [("user_id", PyValue.str "u123"), ("email", PyValue.str "a@b.c"),
         ("padded_size", PyValue.int 2048), ("timestamp", PyValue.int 1700000000)]
        [7] MetadataSanitizer.defaultThreshold).1
      ≠ some (PyValue.int 2050) ∧
    dictGet "timestamp"
      (MetadataSanitizer.sanitizeMetadata
        [("user_id", PyValue.str "u123"), ("email", PyValue.str "a@b.c"),
         ("padded_size", PyValue.int 2048), ("timestamp", PyValue.int 1700000000)]
        [7] MetadataSanitizer.defaultThreshold).1
      = some (PyValue.int 1700000002) ∧
    dictGet "timestamp"
      (MetadataSanitizer.sanitizeMetadata
        [("user_id", PyValue.str "u123"), ("email", PyValue.str "a@b.c"),
         ("padded_size", PyValue.int 2048), ("timestamp", PyValue.int 1700000000)]
        [7] MetadataSanitizer.defaultThreshold).1
      ≠ some (PyValue.int 1699999980) := by
  refine ⟨by decide, by decide, by decide, by decide⟩

/-- C7 (amended): sanitizing
`{user_id: "u123", email: "a@b.c", padded_size: 2048, timestamp: 1700000000}`
removes `user_id` and `email`, quantizes `padded_size` to 2040
(integers floor to the nearest 10: 2048 → 2040, not 2050), and —
because `timestamp` matches the medium-risk table — obfuscates
`timestamp` to `1700000000 + δ` with a random `δ ∈ [-5, 4]` rather
than quantizing it to the minute; the report has
`sanitization_applied = true` and `final_risk_score = 0.2 ≤ 0.3`. -/
theorem c7_sanitize_concrete (rand : List Nat) :
    (MetadataSanitizer.sanitizeMetadata
        [("user_id", PyValue.str "u123"), ("email", PyValue.str "a@b.c"),
         ("padded_size", PyValue.int 2048), ("timestamp", PyValue.int 1700000000)]
        rand MetadataSanitizer.defaultThreshold).1
      = [("padded_size", PyValue.int 2040),
         ("timestamp", PyValue.int (1700000000 + ((rand.headD 0 % 10 : ℕ) : ℤ) - 5))] ∧
    (MetadataSanitizer.sanitizeMetadata
        [("user_id", PyValue.str "u123"), ("email", PyValue.str "a@b.c"),
         ("padded_size", PyValue.int 2048), ("timestamp", PyValue.int 1700000000)]
        rand MetadataSanitizer.defaultThreshold).2.1.removed_fields
      = ["user_id", "email"] ∧
    (MetadataSanitizer.sanitizeMetadata
        [("user_id", PyValue.str "u123"), ("email", PyValue.str "a@b.c"),
         ("padded_size", PyValue.int 2048), ("timestamp", PyValue.int 1700000000)]
        rand MetadataSanitizer.defaultThreshold).2.1.quantized_fields
      = ["padded_size"] ∧
    (MetadataSanitizer.sanitizeMetadata
        [("user_id", PyValue.str "u123"), ("email", PyValue.str "a@b.c"),
         ("padded_size", PyValue.int 2048), ("timestamp", PyValue.int 1700000000)]
        rand MetadataSanitizer.defaultThreshold).2.1.obfuscated_fields
      = ["timestamp"] ∧
    (MetadataSanitizer.sanitizeMetadata
        [("user_id", PyValue.str "u123"), ("email", PyValue.str "a@b.c"),
         ("padded_size", PyValue.int 2048), ("timestamp", PyValue.int 1700000000)]
        rand MetadataSanitizer.defaultThreshold).2.1.sanitization_applied = true ∧
    (MetadataSanitizer.sanitizeMetadata
        [("user_id", PyValue.str "u123"), ("email", PyValue.str "a@b.c"),
         ("padded_size", PyValue.int 2048), ("timestamp", PyValue.int 1700000000)]
        rand MetadataSanitizer.defaultThreshold).2.1.final_risk_score = 1/5 ∧
    (1 : ℚ)/5 ≤ 3/10 ∧
    -5 ≤ ((rand.headD 0 % 10 : ℕ) : ℤ) - 5 ∧ ((rand.headD 0 % 10 : ℕ) : ℤ) - 5 ≤ 4 := by
  have h1 : matchesAny (pyLower "user_id") MetadataSanitizer.sensitiveFields = true := by
    decide
  have h2 : matchesAny (pyLower "email") MetadataSanitizer.sensitiveFields = true := by
    decide
  have h3s : matchesAny (pyLower "padded_size") MetadataSanitizer.sensitiveFields = false := by
    decide
  have h3m : matchesAny (pyLower "padded_size") MetadataSanitizer.mediumRiskFields = false := by
    decide
  have h3l : matchesAny (pyLower "padded_size") MetadataSanitizer.lowRiskFields = true := by
    decide
  have h4s : matchesAny (pyLower "timestamp") MetadataSanitizer.sensitiveFields = false := by
    decide
  have h4m : matchesAny (pyLower "timestamp") MetadataSanitizer.mediumRiskFields = true := by
    decide
  have hq : MetadataSanitizer.quantizeValue "padded_size" (PyValue.int 2048)
      = PyValue.int 2040 := by decide
  have hmod : rand.headD 0 % 10 < 10 := Nat.mod_lt _ (by norm_num)
  have hfold : MetadataSanitizer.sanitizeFold
      (MetadataSanitizer.analyzeRiskScore
        [("user_id", PyValue.str "u123"), ("email", PyValue.str "a@b.c"),
         ("padded_size", PyValue.int 2048), ("timestamp", PyValue.int 1700000000)])
      MetadataSanitizer.defaultThreshold
      [("user_id", PyValue.str "u123"), ("email", PyValue.str "a@b.c"),
       ("padded_size", PyValue.int 2048), ("timestamp", PyValue.int 1700000000)]
      ⟨[], [], [], [], false, rand⟩
      = ⟨[("padded_size", PyValue.int 2040),
          ("timestamp", PyValue.int (1700000000 + ((rand.headD 0 % 10 : ℕ) : ℤ) - 5))],
         ["user_id", "email"], ["timestamp"], ["padded_size"], true, rand.tail⟩ := by
    simp only [MetadataSanitizer.sanitizeFold, h1, h2, h3s, h3m, h3l, h4s, h4m,
      if_true, Bool.false_eq_true, if_false, hq,
      MetadataSanitizer.obfuscateValue, MetadataSanitizer.randbelow]
    rfl
  refine ⟨?_, ?_, ?_, ?_, ?_, ?_, by norm_num, by omega, by omega⟩
  · simp only [MetadataSanitizer.sanitizeMetadata, hfold]
  · simp only [MetadataSanitizer.sanitizeMetadata, hfold]
  · simp only [MetadataSanitizer.sanitizeMetadata, hfold]
  · simp only [MetadataSanitizer.sanitizeMetadata, hfold]
  · simp only [MetadataSanitizer.sanitizeMetadata, hfold]
  · simp only [MetadataSanitizer.sanitizeMetadata, hfold]
    simp only [MetadataSanitizer.calcFinalRiskScore, List.foldl_cons, List.foldl_nil,
      h3s, h3m, h4s, h4m, Bool.false_eq_true, if_false, if_true, List.length_cons,
      List.length_nil]
    norm_num

/-! ## Forensic-resistant audit log (`forensic_resistant_audit.py`) — claim C9 -/

/-- HMAC-SHA-256 (block size 64). -/
def hmacSha256 (key msg : List Nat) : List Nat :=
  let key' := if key.length > 64 then sha256 key else key
  let key64 := key' ++ List.replicate (64 - key'.length) 0
  let ipad := key64.map (fun b => Nat.xor b 54)
  let opad := key64.map (fun b => Nat.xor b 92)
  sha256 (opad ++ sha256 (ipad ++ msg))

/-- Iterate `hashlib.pbkdf2_hmac`'s U-chain, xor-accumulating. -/
def pbkdf2Loop (password : List Nat) : Nat → List Nat → List Nat → List Nat
  | 0, _, acc => acc
  | n + 1, u, acc =>
    let u' := hmacSha256 password u
    pbkdf2Loop password n u' (List.zipWith Nat.xor acc u')

/-- `hashlib.pbkdf2_hmac("sha256", password, salt, iterations)` with the
default dkLen of one hash block (32 bytes). -/
def pbkdf2HmacSha256 (password salt : List Nat) (iterations : Nat) : List Nat :=
  match iterations with
  | 0 => []
  | k + 1 =>
    let u1 := hmacSha256 password (salt ++ toBytesBE 4 1)
    pbkdf2Loop password k u1 u1

namespace ForensicResistantAudit

/-- `_calculate_checksum` (`forensic_resistant_audit.py` lines
101–108), character-level: the first 16 hex digits of
`pbkdf2_hmac("sha256", data, tamper_key, 1000)` — note the line data is
the PBKDF2 *password* and the per-process tamper key the *salt*. -/
def checksumChars (key : List Nat) (data : String) : List Char :=
  ((pbkdf2HmacSha256 (strToBytes data) key 1000).flatMap
    (fun b => [hexChar (b / 16), hexChar (b % 16)])).take 16

/-- `_calculate_checksum` as a string (tamper detection enabled). -/
def calculateChecksum (key : List Nat) (data : String) : String :=
  String.mk (checksumChars key data)

/-- `_write_log_entry` (lines 110–133) on the active (unrotated) log,
modeled as the list of its lines: serialize (the entry arrives already
serialized to its one-line JSON form), append `"|" ++ checksum` when
tamper detection is on, and append the line to the file. -/
def writeLogEntry (tamper : Bool) (key : List Nat) (log : List String)
    (entry : String) : List String :=
  if tamper then log ++ [entry ++ "|" ++ calculateChecksum key entry]
  else log ++ [entry]

/-- `line.rsplit("|", 1)` at the character level (assuming a `"|"` is
present): split at the last bar. -/
def rsplitBar (s : List Char) : List Char × List Char :=
  let r := s.reverse
  let suffix := r.takeWhile (fun c => c != '|')
  ((r.drop (suffix.length + 1)).reverse, suffix.reverse)

/-- Validity of one log line under `verify_log_integrity`'s loop
(lines 210–224): lines with a `"|"` are split at the last bar and the
checksum recomputed; lines without one count as old-format valid. -/
def lineValid (key : List Nat) (line : String) : Bool :=
  if strContains line "|" then
    let parts := rsplitBar line.toList
    String.mk parts.2 == calculateChecksum key (String.mk parts.1)
  else true

/-- `verify_log_integrity` (lines 198–235) over the active log's lines
(tamper detection on unless the flag says otherwise; empty lines are
skipped as in the source's `strip`/`continue`). -/
def verifyLogIntegrity (tamper : Bool) (key : List Nat) (lines : List String) :
    String × Nat × Nat :=
  if ¬ tamper then ("disabled", 0, 0)
  else
    let nonempty := lines.filter (fun l => l ≠ "")
    let valid := nonempty.countP (fun l => lineValid key l)
    let invalid := nonempty.countP (fun l => ! lineValid key l)
    ((if invalid = 0 then "verified" else "tampered"), valid, invalid)

end ForensicResistantAudit

theorem zipWith_xor_lt : ∀ (a b : List Nat), (∀ x ∈ a, x < 256) → (∀ x ∈ b, x < 256) →
    ∀ x ∈ List.zipWith Nat.xor a b, x < 256 := by
  intro a
  induction a with
  | nil => intro b _ _ x hx; simp at hx
  | cons ha ta ih =>
    intro b hha hb x hx
    cases b with
    | nil => simp at hx
    | cons hb' tb =>
      simp only [List.zipWith_cons_cons, List.mem_cons] at hx
      rcases hx with rfl | hx
      · have h1 : ha < 2 ^ 8 := hha ha (List.mem_cons_self _ _)
        have h2 : hb' < 2 ^ 8 := hb hb' (List.mem_cons_self _ _)
        calc Nat.xor ha hb' < 2 ^ 8 := Nat.xor_lt_two_pow h1 h2
          _ = 256 := by norm_num
      · exact ih tb (fun y hy => hha y (List.mem_cons_of_mem _ hy))
          (fun y hy => hb y (List.mem_cons_of_mem _ hy)) x hx

theorem hmacSha256_mem_lt {key msg : List Nat} {b : Nat} (h : b ∈ hmacSha256 key msg) :
    b < 256 := sha256_mem_lt h

theorem pbkdf2Loop_mem_lt (password : List Nat) :
    ∀ (n : Nat) (u acc : List Nat), (∀ x ∈ acc, x < 256) →
    ∀ x ∈ pbkdf2Loop password n u acc, x < 256 := by
  intro n
  induction n with
  | zero => intro u acc hacc x hx; exact hacc x hx
  | succ k ih =>
    intro u acc hacc x hx
    exact ih (hmacSha256 password u)
      (List.zipWith Nat.xor acc (hmacSha256 password u))
      (zipWith_xor_lt _ _ hacc (fun y hy => hmacSha256_mem_lt hy)) x hx

theorem pbkdf2_mem_lt {password salt : List Nat} {c : Nat} {b : Nat}
    (h : b ∈ pbkdf2HmacSha256 password salt c) : b < 256 := by
  cases c with
  | zero => simp [pbkdf2HmacSha256] at h
  | succ k =>
    exact pbkdf2Loop_mem_lt password k _ _ (fun y hy => hmacSha256_mem_lt hy) b h

theorem hexChar_ne_bar {n : Nat} (h : n < 16) : hexChar n ≠ '|' := by
  have : ∀ m : Nat, m < 16 → hexChar m ≠ '|' := by decide
  exact this n h

theorem bar_not_mem_checksumChars (key : List Nat) (data : String) :
    '|' ∉ ForensicResistantAudit.checksumChars key data := by
  intro hmem
  unfold ForensicResistantAudit.checksumChars at hmem
  have hmem' := List.mem_of_mem_take hmem
  rw [List.mem_flatMap] at hmem'
  obtain ⟨b, hb, hc⟩ := hmem'
  have hblt : b < 256 := pbkdf2_mem_lt hb
  simp only [List.mem_cons, List.not_mem_nil, or_false] at hc
  rcases hc with hc | hc
  · exact hexChar_ne_bar (by omega) hc.symm
  · exact hexChar_ne_bar (Nat.mod_lt _ (by norm_num)) hc.symm

theorem takeWhileNeAll {p : Char → Bool} :
    ∀ (xs : List Char) (y : Char) (ys : List Char), (∀ x ∈ xs, p x = true) → p y = false →
    (xs ++ y :: ys).takeWhile p = xs := by
  intro xs
  induction xs with
  | nil => intro y ys _ hy; simp [List.takeWhile_cons, hy]
  | cons hd tl ih =>
    intro y ys hxs hy
    have hhd : p hd = true := hxs hd (List.mem_cons_self _ _)
    simp only [List.cons_append, List.takeWhile_cons, hhd, if_true]
    rw [ih y ys (fun x hx => hxs x (List.mem_cons_of_mem _ hx)) hy]

/-- `rsplit("|", 1)` recovers the two halves of `a ++ "|" ++ b` when
`b` is bar-free. -/
theorem rsplitBar_append (a b : List Char) (hb : '|' ∉ b) :
    ForensicResistantAudit.rsplitBar (a ++ '|' :: b) = (a, b) := by
  unfold ForensicResistantAudit.rsplitBar
  have hrev : (a ++ '|' :: b).reverse = b.reverse ++ '|' :: a.reverse := by
    simp
  have htw : (b.reverse ++ '|' :: a.reverse).takeWhile (fun c => c != '|')
      = b.reverse := by
    apply takeWhileNeAll
    · intro x hx
      have : x ∈ b := List.mem_reverse.mp hx
      have hne : x ≠ '|' := fun he => hb (he ▸ this)
      simp [hne]
    · simp
  have hdrop : (b.reverse ++ '|' :: a.reverse).drop (b.reverse.length + 1)
      = a.reverse := by
    have : b.reverse ++ '|' :: a.reverse = (b.reverse ++ ['|']) ++ a.reverse := by
      simp
    rw [this]
    have hlen : (b.reverse ++ ['|']).length = b.reverse.length + 1 := by simp
    rw [← hlen, List.drop_left]
  simp only [ForensicResistantAudit.rsplitBar, hrev, htw, hdrop]
  simp

/-- Every line the audit writer appends (tamper detection on) verifies
under the same key. -/
theorem lineValid_written (key : List Nat) (entry : String) :
    ForensicResistantAudit.lineValid key
      (entry ++ "|" ++ ForensicResistantAudit.calculateChecksum key entry) = true := by
  have hdata : (entry ++ "|" ++ ForensicResistantAudit.calculateChecksum key entry).toList
      = entry.toList ++ '|' :: ForensicResistantAudit.checksumChars key entry := by
    simp [String.toList, String.data_append, ForensicResistantAudit.calculateChecksum]
  have hbar : strContains
      (entry ++ "|" ++ ForensicResistantAudit.calculateChecksum key entry) "|" = true := by
    have : ∀ l : List Char, '|' ∈ l → hasInfixB ['|'] l = true := by
      intro l
      induction l with
      | nil => intro h; simp at h
      | cons c rest ih =>
        intro h
        rcases List.mem_cons.mp h with rfl | h
        · simp [hasInfixB, isPrefixB]
        · simp [hasInfixB, ih h]
    unfold strContains
    apply this
    rw [hdata]
    simp
  unfold ForensicResistantAudit.lineValid
  rw [hbar]
  simp only [if_true]
  rw [hdata, rsplitBar_append _ _ (bar_not_mem_checksumChars key entry)]
  have h1 : String.mk (ForensicResistantAudit.checksumChars key entry)
      = ForensicResistantAudit.calculateChecksum key entry := rfl
  have h2 : String.mk entry.toList = entry := rfl
  rw [h1, h2]
  simp

/-- C9: audit append/verify round trip.  With tamper detection enabled,
a log produced entirely by the audit writer — each line the serialized
record plus `"|"` plus the truncated PBKDF2-HMAC checksum under the
per-process tamper key — verifies in full: `verify_log_integrity`
returns status `"verified"` with every entry counted valid and an
invalid count of 0.  (The model is the active, unrotated log file,
matching the claim's "unmodified and not rotated" proviso.) -/
theorem c9_audit_append_verify_roundtrip (key : List Nat) (entries : List String) :
    ForensicResistantAudit.verifyLogIntegrity true key
      (entries.foldl (ForensicResistantAudit.writeLogEntry true key) [])
      = ("verified", entries.length, 0) := by
  have hwrite : ∀ (log : List String),
      entries.foldl (ForensicResistantAudit.writeLogEntry true key) log
        = log ++ entries.map
            (fun e => e ++ "|" ++ ForensicResistantAudit.calculateChecksum key e) := by
    induction entries with
    | nil => intro log; simp
    | cons e rest ih =>
      intro log
      simp only [List.foldl_cons, List.map_cons]
      rw [ih]
      simp [ForensicResistantAudit.writeLogEntry]
  rw [hwrite, List.nil_append]
  unfold ForensicResistantAudit.verifyLogIntegrity
  simp only [not_true, if_false, Bool.not_eq_true]
  have hne : ∀ e : String,
      (e ++ "|" ++ ForensicResistantAudit.calculateChecksum key e) ≠ "" := by
    intro e he
    have : (e ++ "|" ++ ForensicResistantAudit.calculateChecksum key e).toList
        = [] := by rw [he]; rfl
    rw [String.toList, String.data_append, String.data_append] at this
    simp at this
  have hfilter : (entries.map
      (fun e => e ++ "|" ++ ForensicResistantAudit.calculateChecksum key e)).filter
        (fun l => l ≠ "")
      = entries.map (fun e => e ++ "|" ++ ForensicResistantAudit.calculateChecksum key e) := by
    apply List.filter_eq_self.mpr
    intro l hl
    rw [List.mem_map] at hl
    obtain ⟨e, _, rfl⟩ := hl
    simp [hne e]
  rw [hfilter]
  have hvalid : (entries.map
      (fun e => e ++ "|" ++ ForensicResistantAudit.calculateChecksum key e)).countP
        (fun l => ForensicResistantAudit.lineValid key l) = entries.length := by
    have hlen : (entries.map
        (fun e => e ++ "|" ++ ForensicResistantAudit.calculateChecksum key e)).length
        = entries.length := List.length_map _ _
    rw [← hlen, List.countP_eq_length]
    intro l hl
    rw [List.mem_map] at hl
    obtain ⟨e, _, rfl⟩ := hl
    exact lineValid_written key e
  have hinvalid : (entries.map
      (fun e => e ++ "|" ++ ForensicResistantAudit.calculateChecksum key e)).countP
        (fun l => ! ForensicResistantAudit.lineValid key l) = 0 := by
    rw [List.countP_eq_zero]
    intro l hl
    rw [List.mem_map] at hl
    obtain ⟨e, _, rfl⟩ := hl
    simp [lineValid_written key e]
  rw [hvalid, hinvalid]
  simp
